import Mathlib

set_option maxRecDepth 8000

/-!
Verification of the quick-add extraction engine (`parseQuickAddRu`) of the
vikunja webhook enrichment service.  The TypeScript source is shallowly
embedded: JavaScript `Date` values become integers (milliseconds since the
Unix epoch, with the process timezone pinned to UTC as the repository's
test configuration requires), the regular expressions of the parser become
executable matchers over `List Char` reproducing JavaScript regex
semantics (in particular the ASCII-only `\w`/`\b` word-boundary rule of
non-unicode-mode regexes), and the mutable `(remaining, patch)` pipeline
becomes a chain of pure stage functions over an explicit state.
-/

namespace QuickAddRu

/-! ### Characters and strings (JavaScript semantics, ASCII + Cyrillic) -/

/-- Whitespace as matched by the JS regex class and by trimming, restricted
to the ASCII whitespace characters that can occur in the inputs here. -/
def isSpace (c : Char) : Bool :=
  c == ' ' || c == '\t' || c == '\n' || c == '\r' || c == '\x0b' || c == '\x0c'

/-- JS `\w`: ASCII letters, digits and underscore only.  Cyrillic letters are
NOT word characters in a non-unicode-mode JavaScript regex. -/
def isWordChar (c : Char) : Bool :=
  let n := c.toNat
  decide ((97 ≤ n ∧ n ≤ 122) ∨ (65 ≤ n ∧ n ≤ 90) ∨ (48 ≤ n ∧ n ≤ 57) ∨ n = 95)

def isWordOpt : Option Char → Bool
  | some c => isWordChar c
  | none => false

/-- JS `\b`: the two sides differ in word-character-ness (out of string
counts as non-word). -/
def boundaryB (a b : Option Char) : Bool :=
  isWordOpt a != isWordOpt b

/-- `String.prototype.toLowerCase` restricted to ASCII and the Cyrillic
letters appearing in the parser's keyword sets. -/
def jsToLower (c : Char) : Char :=
  let n := c.toNat
  if 65 ≤ n ∧ n ≤ 90 then Char.ofNat (n + 32)
  else if 0x410 ≤ n ∧ n ≤ 0x42F then Char.ofNat (n + 0x20)
  else if n = 0x401 then Char.ofNat 0x451
  else c

/-- `String.prototype.toUpperCase` restricted likewise. -/
def jsToUpper (c : Char) : Char :=
  let n := c.toNat
  if 97 ≤ n ∧ n ≤ 122 then Char.ofNat (n - 32)
  else if 0x430 ≤ n ∧ n ≤ 0x44F then Char.ofNat (n - 0x20)
  else if n = 0x451 then Char.ofNat 0x401
  else c

/-- Case-insensitive character comparison, as the `i` regex flag gives. -/
def charIEq (a b : Char) : Bool := jsToLower a == jsToLower b

def lowerL (s : List Char) : List Char := s.map jsToLower

def dropSpaces (s : List Char) : List Char := s.dropWhile isSpace

/-- `String.prototype.trim`. -/
def trimL (s : List Char) : List Char :=
  (dropSpaces ((dropSpaces s.reverse).reverse))

/-- The title-cleanup collapse `replace(/\s{2,}/g, ' ')`: every run of two or
more whitespace characters becomes a single space; a lone whitespace
character is left as it is.  Structural recursion on a fuel bound (the
fuel never runs out when it starts at the length of the list). -/
def twoSpaceRun (c : Char) (cs : List Char) : Bool :=
  isSpace c && (match cs with | d :: _ => isSpace d | [] => false)

def collapseWsF : Nat → List Char → List Char
  | 0, s => s
  | _ + 1, [] => []
  | k + 1, c :: cs =>
    if twoSpaceRun c cs then
      ' ' :: collapseWsF k (dropSpaces cs)
    else
      c :: collapseWsF k cs

def collapseWs (s : List Char) : List Char := collapseWsF s.length s

/-- `charAt(0).toUpperCase() + slice(1)`. -/
def capFirst : List Char → List Char
  | [] => []
  | c :: cs => jsToUpper c :: cs

def natOfDigits (ds : List Char) : Nat :=
  ds.foldl (fun acc c => 10 * acc + (c.toNat - 48)) 0

/-! ### JavaScript `Date` model (UTC, milliseconds since the epoch) -/

abbrev JsDate := Int

def msPerDay : Int := 86400000

def dayNumber (d : JsDate) : Int := Int.fdiv d msPerDay

def msOfDay (d : JsDate) : Int := Int.emod d msPerDay

def startOfDay (d : JsDate) : JsDate := dayNumber d * msPerDay

def addDays (d : JsDate) (n : Int) : JsDate := d + n * msPerDay

/-- `Date.prototype.getDay` (0 = Sunday … 6 = Saturday); 1970-01-01 was a
Thursday. -/
def getDay (d : JsDate) : Int := Int.emod (dayNumber d + 4) 7

/-- Civil date to day count since 1970-01-01 (proleptic Gregorian, month
1-based); linear in `d`, so day 0 rolls into the previous month exactly as
`new Date(y, m, 0)` does. -/
def daysFromCivil (y m d : Int) : Int :=
  let y1 := y - (if m ≤ 2 then 1 else 0)
  let era := Int.fdiv y1 400
  let yoe := y1 - era * 400
  let mp := Int.emod (m + 9) 12
  let doy := Int.fdiv (153 * mp + 2) 5 + d - 1
  let doe := yoe * 365 + Int.fdiv yoe 4 - Int.fdiv yoe 100 + doy
  era * 146097 + doe - 719468

/-- Day count since 1970-01-01 back to a civil `(year, month, day)`. -/
def civilFromDays (z0 : Int) : Int × Int × Int :=
  let z := z0 + 719468
  let era := Int.fdiv z 146097
  let doe := z - era * 146097
  let yoe := Int.fdiv (doe - Int.fdiv doe 1460 + Int.fdiv doe 36524 - Int.fdiv doe 146096) 365
  let y := yoe + era * 400
  let doy := doe - (365 * yoe + Int.fdiv yoe 4 - Int.fdiv yoe 100)
  let mp := Int.fdiv (5 * doy + 2) 153
  let d := doy - Int.fdiv (153 * mp + 2) 5 + 1
  let m := mp + (if mp < 10 then 3 else -9)
  (y + (if m ≤ 2 then 1 else 0), m, d)

def isLeap (y : Int) : Bool :=
  decide ((Int.emod y 4 = 0 ∧ Int.emod y 100 ≠ 0) ∨ Int.emod y 400 = 0)

def daysInMonthYM (y m : Int) : Int :=
  if m = 2 then (if isLeap y then 29 else 28)
  else if m = 4 ∨ m = 6 ∨ m = 9 ∨ m = 11 then 30
  else 31

def getFullYear (d : JsDate) : Int := (civilFromDays (dayNumber d)).1

/-- `Date.prototype.getMonth` (0-based). -/
def getMonth0 (d : JsDate) : Int := (civilFromDays (dayNumber d)).2.1 - 1

/-- `Date.prototype.getDate` (day of month). -/
def getDate (d : JsDate) : Int := (civilFromDays (dayNumber d)).2.2

/-- date-fns `getDaysInMonth`. -/
def getDaysInMonth (d : JsDate) : Int :=
  daysInMonthYM (getFullYear d) ((civilFromDays (dayNumber d)).2.1)

/-- `new Date(y, m0, day)` with a 0-based month, at midnight UTC. -/
def mkDateDay (y m0 day : Int) : JsDate := daysFromCivil y (m0 + 1) day * msPerDay

def getHours (d : JsDate) : Int := Int.fdiv (Int.emod d 86400000) 3600000

def getMinutes (d : JsDate) : Int := Int.fdiv (Int.emod d 3600000) 60000

def getSeconds (d : JsDate) : Int := Int.fdiv (Int.emod d 60000) 1000

/-- `setHours(d, h)`: hour field replaced, minutes/seconds/ms kept; an
out-of-range hour overflows into later days, as in JavaScript. -/
def setHours (d : JsDate) (h : Int) : JsDate :=
  (d - Int.emod d 86400000) + h * 3600000 + Int.emod d 3600000

def setMinutes (d : JsDate) (m : Int) : JsDate :=
  (d - Int.emod d 3600000) + m * 60000 + Int.emod d 60000

def setSeconds (d : JsDate) (s : Int) : JsDate :=
  (d - Int.emod d 60000) + s * 1000 + Int.emod d 1000

def setMilliseconds (d : JsDate) (ms : Int) : JsDate :=
  (d - Int.emod d 1000) + ms

/-- date-fns `addMonths`: month arithmetic with the day clamped to the
target month's length, time of day preserved. -/
def addMonths (d : JsDate) (n : Int) : JsDate :=
  let c := civilFromDays (dayNumber d)
  let total := c.1 * 12 + (c.2.1 - 1) + n
  let y := Int.fdiv total 12
  let m := Int.emod total 12 + 1
  let dd := min c.2.2 (daysInMonthYM y m)
  daysFromCivil y m dd * msPerDay + msOfDay d

def pad2 (n : Nat) : String := if n < 10 then "0" ++ toString n else toString n

def pad3 (n : Nat) : String :=
  if n < 10 then "00" ++ toString n
  else if n < 100 then "0" ++ toString n
  else toString n

def pad4 (n : Nat) : String :=
  if n < 10 then "000" ++ toString n
  else if n < 100 then "00" ++ toString n
  else if n < 1000 then "0" ++ toString n
  else toString n

/-- `Date.prototype.toISOString`. -/
def toIso (d : JsDate) : String :=
  let c := civilFromDays (dayNumber d)
  let t := msOfDay d
  pad4 c.1.toNat ++ "-" ++ pad2 c.2.1.toNat ++ "-" ++ pad2 c.2.2.toNat ++ "T" ++
    pad2 (Int.fdiv t 3600000).toNat ++ ":" ++
    pad2 (Int.emod (Int.fdiv t 60000) 60).toNat ++ ":" ++
    pad2 (Int.emod (Int.fdiv t 1000) 60).toNat ++ "." ++
    pad3 (Int.emod t 1000).toNat ++ "Z"

/-- Convenience constructor for a UTC instant, used only in statements. -/
def mkUtc (y m d hh mi : Int) : JsDate :=
  daysFromCivil y m d * msPerDay + hh * 3600000 + mi * 60000

/-! ### Source helpers (`quickAddRu.ts`) -/

/-- `atTime`: set h/m and zero seconds and milliseconds. -/
def atTime (date : JsDate) (h m : Int) : JsDate :=
  setMilliseconds (setSeconds (setMinutes (setHours date h) m) 0) 0

def atEndOfDay (date : JsDate) : JsDate := atTime date 23 59

/-- `nextWeekday`: next occurrence of `targetWeekday` (0=Sun…6=Sat); if
today already is that weekday it is returned only when `allowToday`. -/
def nextWeekday (frm : JsDate) (targetWeekday : Int) (allowToday : Bool) : JsDate :=
  let fromDay := getDay frm
  let delta := targetWeekday - fromDay
  let delta := if delta < 0 ∨ (delta = 0 ∧ allowToday = false) then delta + 7 else delta
  addDays (startOfDay frm) delta

/-- `nearestDayOfMonth`: the given day-of-month in the nearest future,
clamped to the length of the month used. -/
def nearestDayOfMonth (frm : JsDate) (day : Int) : JsDate :=
  let daysInCurrent := getDaysInMonth frm
  let clampedDay := min day daysInCurrent
  let candidate := mkDateDay (getFullYear frm) (getMonth0 frm) clampedDay
  if candidate < startOfDay frm then
    let next := addMonths frm 1
    let daysInNext := getDaysInMonth next
    mkDateDay (getFullYear next) (getMonth0 next) (min day daysInNext)
  else candidate

/-- `ceilToHour`: round up to the next full hour unless already exactly on
a minute-and-second-free instant. -/
def ceilToHour (d : JsDate) : JsDate :=
  if getMinutes d = 0 ∧ getSeconds d = 0 then d
  else setHours (d - Int.emod d 3600000) (getHours d + 1)

/-! ### Regex matchers

Each of the parser's regular expressions becomes a matcher
`Option Char → List Char → Option (α × List Char)`: given the character
preceding the current position (for `\b`) and the text from the current
position, it returns the captured data and the text following the match.
`searchRe` then finds the leftmost match, exactly as `String.match` /
`RegExp.test` / non-global `replace` do. -/

def matchLitI : List Char → List Char → Option (List Char)
  | [], s => some s
  | _ :: _, [] => none
  | k :: ks, c :: cs => if charIEq k c then matchLitI ks cs else none

def matchCharI (k : Char) : List Char → Option (List Char)
  | c :: cs => if charIEq k c then some cs else none
  | [] => none

/-- `\s+` (greedy; the tokens following it in the parser's regexes never
match whitespace, so maximal munch is exact). -/
def ws1 : List Char → Option (List Char)
  | c :: cs => if isSpace c then some (dropSpaces cs) else none
  | [] => none

def isDigitOpt : Option Char → Bool
  | some c => c.isDigit
  | none => false

/-- Ordered alternation over literal keywords, each followed by the
regex's trailing `\b`; on a boundary failure the next alternative is
tried, as JavaScript backtracking does. -/
def altKeyB (alts : List (List Char × α)) (s : List Char) : Option (α × List Char) :=
  match alts with
  | [] => none
  | (kw, v) :: rest =>
    match matchLitI kw s with
    | some s1 => if boundaryB kw.getLast? s1.head? then some (v, s1) else altKeyB rest s
    | none => altKeyB rest s

/-- Space-separated literal words (`w1\s+w2\s+…`). -/
def matchWords : List (List Char) → List Char → Option (List Char)
  | [], s => some s
  | [w], s => matchLitI w s
  | w :: ws, s =>
    match matchLitI w s with
    | some s1 =>
      match ws1 s1 with
      | some s2 => matchWords ws s2
      | none => none
    | none => none

/-- `\b<words>\b` where `lastC` is the final literal character (its
word-ness decides the trailing boundary). -/
def phraseB (words : List (List Char)) (lastC : Char) (prev : Option Char) (s : List Char) :
    Option (Unit × List Char) :=
  if boundaryB prev s.head? then
    match matchWords words s with
    | some rest => if boundaryB (some lastC) rest.head? then some ((), rest) else none
    | none => none
  else none

/-- Leftmost-match search, threading the previous character for `\b`. -/
def searchAux (m : Option Char → List Char → Option (α × List Char)) :
    Option Char → List Char → List Char → Option (List Char × α × List Char)
  | prev, acc, [] =>
    match m prev [] with
    | some (a, rest) => some (acc.reverse, a, rest)
    | none => none
  | prev, acc, c :: cs =>
    match m prev (c :: cs) with
    | some (a, rest) => some (acc.reverse, a, rest)
    | none => searchAux m (some c) (c :: acc) cs

def searchRe (m : Option Char → List Char → Option (α × List Char)) (s : List Char) :
    Option (List Char × α × List Char) :=
  searchAux m none [] s

/-- `/!([1-5])\b/i` -/
def prioNumM (_ : Option Char) (s : List Char) : Option (Nat × List Char) :=
  match s with
  | '!' :: c :: rest =>
    if decide ('1' ≤ c ∧ c ≤ '5') && !isWordOpt rest.head? then some (c.toNat - 48, rest)
    else none
  | _ => none

def prioAlts : List (List Char × Nat) :=
  [("срочно".data, 5), ("urgent".data, 5), ("важно".data, 4), ("important".data, 4)]

/-- `/!(срочно|urgent|важно|important)\b/i` -/
def prioWordM (_ : Option Char) (s : List Char) : Option (Nat × List Char) :=
  match s with
  | '!' :: rest => altKeyB prioAlts rest
  | _ => none

def isSimpleTokChar (c : Char) : Bool :=
  !isSpace c && c != '!' && c != '+' && c != '*' && c != '"'

/-- Quoted capture `<mark>"([^"]+)"`. -/
def quotedCapM (mark : Char) (_ : Option Char) (s : List Char) :
    Option (List Char × List Char) :=
  match s with
  | m :: q :: rest =>
    if m == mark && q == '"' then
      let p := rest.span (fun c => c != '"')
      match p.2 with
      | '"' :: rest2 => if p.1.isEmpty then none else some (p.1, rest2)
      | _ => none
    else none
  | _ => none

/-- Simple-token capture `<mark>([^\s!+*"]+)`. -/
def simpleCapM (mark : Char) (_ : Option Char) (s : List Char) :
    Option (List Char × List Char) :=
  match s with
  | m :: rest =>
    if m == mark then
      let p := rest.span isSimpleTokChar
      if p.1.isEmpty then none else some (p.1, p.2)
    else none
  | _ => none

/-- `(\d{2})(?!\d)` part of the explicit-time regex, after the colon. -/
def etColon (h : Nat) : List Char → Option ((Nat × Nat) × List Char)
  | ':' :: m1 :: m2 :: rest =>
    if m1.isDigit && m2.isDigit && !isDigitOpt rest.head? then
      some ((h, 10 * (m1.toNat - 48) + (m2.toNat - 48)), rest)
    else none
  | _ => none

/-- `(\d{1,2}):(\d{2})(?!\d)` with the greedy one-or-two-digit hour. -/
def etDigits : List Char → Option ((Nat × Nat) × List Char)
  | c1 :: c2 :: rest =>
    if c1.isDigit then
      if c2.isDigit then
        match etColon (10 * (c1.toNat - 48) + (c2.toNat - 48)) rest with
        | some r => some r
        | none => etColon (c1.toNat - 48) (c2 :: rest)
      else etColon (c1.toNat - 48) (c2 :: rest)
    else none
  | [c1] => if c1.isDigit then etColon (c1.toNat - 48) [] else none
  | [] => none

/-- `/(?:в\s+)?(\d{1,2}):(\d{2})(?!\d)/i` -/
def explicitTimeM (_ : Option Char) (s : List Char) : Option ((Nat × Nat) × List Char) :=
  match matchCharI 'в' s with
  | some s1 =>
    match ws1 s1 with
    | some s2 =>
      match etDigits s2 with
      | some r => some r
      | none => etDigits s
    | none => etDigits s
  | none => etDigits s

/-- Trailing `\b(?!:)` of the hour-only regex. -/
def hoTail (h : Nat) (rest : List Char) : Option (Nat × List Char) :=
  if !isWordOpt rest.head? && rest.head? != some ':' then some (h, rest) else none

def hoDigits : List Char → Option (Nat × List Char)
  | c1 :: c2 :: rest =>
    if c1.isDigit then
      if c2.isDigit then
        match hoTail (10 * (c1.toNat - 48) + (c2.toNat - 48)) rest with
        | some r => some r
        | none => hoTail (c1.toNat - 48) (c2 :: rest)
      else hoTail (c1.toNat - 48) (c2 :: rest)
    else none
  | [c1] => if c1.isDigit then hoTail (c1.toNat - 48) [] else none
  | [] => none

/-- `/\bв\s+(\d{1,2})\b(?!:)/i`; `в` is not a word character, so the
leading `\b` demands a word character immediately before it. -/
def hourOnlyM (prev : Option Char) (s : List Char) : Option (Nat × List Char) :=
  if isWordOpt prev then
    match matchCharI 'в' s with
    | some s1 =>
      match ws1 s1 with
      | some s2 => hoDigits s2
      | none => none
    | none => none
  else none

def markerAlts : List (List Char × (Nat × Nat)) :=
  [("утром".data, (8, 0)), ("днем".data, (13, 0)), ("днём".data, (13, 0)),
   ("вечером".data, (20, 0)), ("ночью".data, (23, 0))]

/-- `/\b(утром|днем|днём|вечером|ночью)\b/i` -/
def timeMarkerM (prev : Option Char) (s : List Char) : Option ((Nat × Nat) × List Char) :=
  if boundaryB prev s.head? then altKeyB markerAlts s else none

/-- `/\bкаждый\s+день\b/i` -/
def everyDayM : Option Char → List Char → Option (Unit × List Char) :=
  phraseB ["каждый".data, "день".data] 'ь'

/-- `/\bкаждую\s+неделю\b/i` -/
def everyWeekM : Option Char → List Char → Option (Unit × List Char) :=
  phraseB ["каждую".data, "неделю".data] 'ю'

/-- `/\bкаждый\s+месяц\b/i` -/
def everyMonthM : Option Char → List Char → Option (Unit × List Char) :=
  phraseB ["каждый".data, "месяц".data] 'ц'

/-- `/\bкаждый\s+час\b/i` -/
def everyHourM : Option Char → List Char → Option (Unit × List Char) :=
  phraseB ["каждый".data, "час".data] 'с'

/-- `/\bкаждые\s+(\d+)\s+часов?\b/i` -/
def everyNHoursM (prev : Option Char) (s : List Char) : Option (Nat × List Char) :=
  if boundaryB prev s.head? then
    match matchLitI "каждые".data s with
    | some s1 =>
      match ws1 s1 with
      | some s2 =>
        let p := s2.span Char.isDigit
        if p.1.isEmpty then none
        else
          match ws1 p.2 with
          | some s4 =>
            match matchLitI "часо".data s4 with
            | some s5 =>
              match matchCharI 'в' s5 with
              | some s6 =>
                if isWordOpt s6.head? then some (natOfDigits p.1, s6)
                else if isWordOpt s5.head? then some (natOfDigits p.1, s5)
                else none
              | none => if isWordOpt s5.head? then some (natOfDigits p.1, s5) else none
            | none => none
          | none => none
      | none => none
    | none => none
  else none

def weekdayAlts : List (List Char × Nat) :=
  [("воскресенье".data, 0), ("sunday".data, 0), ("sun".data, 0),
   ("понедельник".data, 1), ("monday".data, 1), ("mon".data, 1),
   ("вторник".data, 2), ("tuesday".data, 2), ("tue".data, 2),
   ("среду".data, 3), ("среда".data, 3), ("wednesday".data, 3), ("wed".data, 3),
   ("четверг".data, 4), ("thursday".data, 4), ("thu".data, 4),
   ("пятницу".data, 5), ("пятница".data, 5), ("friday".data, 5), ("fri".data, 5),
   ("субботу".data, 6), ("суббота".data, 6), ("saturday".data, 6), ("sat".data, 6)]

def prefAlt (s : List Char) : Option (List Char) :=
  match matchLitI "каждый".data s with
  | some r => some r
  | none =>
    match matchLitI "каждую".data s with
    | some r => some r
    | none => matchLitI "каждое".data s

/-- `/\b(?:каждый|каждую|каждое)\s+(<weekdays>)\b/i` -/
def everyWeekdayM (prev : Option Char) (s : List Char) : Option (Nat × List Char) :=
  if boundaryB prev s.head? then
    match prefAlt s with
    | some s1 =>
      match ws1 s1 with
      | some s2 => altKeyB weekdayAlts s2
      | none => none
    | none => none
  else none

/-- `числ[оа]?\b` tail of the day-of-month regex (greedy optional class,
then the boundary, with JavaScript backtracking). -/
def edomTail (s : List Char) : Option (List Char) :=
  match matchLitI "числ".data s with
  | some s1 =>
    match s1 with
    | c :: rest =>
      if (charIEq 'о' c || charIEq 'а' c) && isWordOpt rest.head? then some rest
      else if isWordChar c then some s1
      else none
    | [] => none
  | none => none

def edomAfterDigits (n : Nat) (s : List Char) : Option (Nat × List Char) :=
  match ws1 s with
  | some s1 =>
    match edomTail s1 with
    | some s2 => some (n, s2)
    | none => none
  | none => none

/-- `/\bкаждое\s+(\d{1,2})\s+числ[оа]?\b/i` -/
def everyDayOfMonthM (prev : Option Char) (s : List Char) : Option (Nat × List Char) :=
  if boundaryB prev s.head? then
    match matchLitI "каждое".data s with
    | some s1 =>
      match ws1 s1 with
      | some s2 =>
        match s2 with
        | c1 :: c2 :: rest =>
          if c1.isDigit then
            if c2.isDigit then
              match edomAfterDigits (10 * (c1.toNat - 48) + (c2.toNat - 48)) rest with
              | some r => some r
              | none => edomAfterDigits (c1.toNat - 48) (c2 :: rest)
            else edomAfterDigits (c1.toNat - 48) (c2 :: rest)
          else none
        | [c1] => if c1.isDigit then edomAfterDigits (c1.toNat - 48) [] else none
        | [] => none
      | none => none
    | none => none
  else none

/-- `/\bвторой\s+день\s+каждой\s+недели\b/i` -/
def secondDayM : Option Char → List Char → Option (Unit × List Char) :=
  phraseB ["второй".data, "день".data, "каждой".data, "недели".data] 'и'

/-- `/\b(сегодня|today)\b/i` -/
def todayM (prev : Option Char) (s : List Char) : Option (Unit × List Char) :=
  if boundaryB prev s.head? then altKeyB [("сегодня".data, ()), ("today".data, ())] s
  else none

/-- `/\b(завтра|tomorrow)\b/i` -/
def tomorrowM (prev : Option Char) (s : List Char) : Option (Unit × List Char) :=
  if boundaryB prev s.head? then altKeyB [("завтра".data, ()), ("tomorrow".data, ())] s
  else none

/-- `/\bпослезавтра\b/i` -/
def dayAfterTomorrowM : Option Char → List Char → Option (Unit × List Char) :=
  phraseB ["послезавтра".data] 'а'

/-- `дн[еёяй]?\b` tail of the in-N-days regex. -/
def inNDaysTail (s : List Char) : Option (List Char) :=
  match matchLitI "дн".data s with
  | some s1 =>
    match s1 with
    | c :: rest =>
      if (charIEq 'е' c || charIEq 'ё' c || charIEq 'я' c || charIEq 'й' c) &&
          isWordOpt rest.head? then some rest
      else if isWordChar c then some s1
      else none
    | [] => none
  | none => none

/-- `/\bчерез\s+(\d+)\s+дн[еёяй]?\b/i` -/
def inNDaysM (prev : Option Char) (s : List Char) : Option (Nat × List Char) :=
  if boundaryB prev s.head? then
    match matchLitI "через".data s with
    | some s1 =>
      match ws1 s1 with
      | some s2 =>
        let p := s2.span Char.isDigit
        if p.1.isEmpty then none
        else
          match ws1 p.2 with
          | some s4 =>
            match inNDaysTail s4 with
            | some s5 => some (natOfDigits p.1, s5)
            | none => none
          | none => none
      | none => none
    | none => none
  else none

/-- `/\b(?:в\s+)?(<weekdays>)\b/i` -/
def weekdayOnceM (prev : Option Char) (s : List Char) : Option (Nat × List Char) :=
  if boundaryB prev s.head? then
    match matchCharI 'в' s with
    | some s1 =>
      match ws1 s1 with
      | some s2 =>
        match altKeyB weekdayAlts s2 with
        | some r => some r
        | none => altKeyB weekdayAlts s
      | none => altKeyB weekdayAlts s
    | none => altKeyB weekdayAlts s
  else none

/-! ### The result patch and the pipeline state -/

/-- `ParsedTaskPatch` of the source.  `repeat_mode` carries the numeric
value of the source's `0 | 1 | 3` literal union. -/
structure ParsedTaskPatch where
  due_date : Option String := none
  priority : Option Nat := none
  project_name : Option String := none
  labels : Option (List String) := none
  repeat_after : Option Nat := none
  repeat_mode : Option Nat := none
  cleaned_title : Option String := none
deriving DecidableEq, Repr

/-- The mutable locals of `parseQuickAddRu`: the remaining buffer, the
patch under construction, and the extracted time variables. -/
structure ParseState where
  remaining : List Char
  patch : ParsedTaskPatch
  parsedHour : Option Nat
  parsedMinute : Option Nat
  markerHour : Option Nat
  markerMinute : Option Nat
deriving DecidableEq, Repr

def initState (text : List Char) : ParseState :=
  ⟨text, {}, none, none, none, none⟩

/-- `effectiveHour = parsedHour ?? markerHour`. -/
def effectiveHour (st : ParseState) : Option Nat :=
  match st.parsedHour with
  | some h => some h
  | none => st.markerHour

def effectiveMinute (st : ParseState) : Option Nat :=
  match st.parsedMinute with
  | some m => some m
  | none => st.markerMinute

/-- The parser's inner `applyTime`. -/
def applyTime (st : ParseState) (base : JsDate) : JsDate :=
  match effectiveHour st, effectiveMinute st with
  | some h, some m => atTime base (h : Int) (m : Int)
  | _, _ => atEndOfDay base

/-- JavaScript truthiness of `patch.due_date` (used by the `!patch.due_date`
guards): `undefined` and the empty string are falsy. -/
def dueTruthy (p : ParsedTaskPatch) : Bool :=
  match p.due_date with
  | some s => s != ""
  | none => false

/-! ### Pipeline stages (numbered as the comments in the source) -/

/-- Stage 1: priority, numeric form over keyword form. -/
def stagePriority (st : ParseState) : ParseState :=
  match searchRe prioNumM st.remaining with
  | some (b, n, a) =>
    { st with remaining := b ++ ' ' :: a, patch := { st.patch with priority := some n } }
  | none =>
    match searchRe prioWordM st.remaining with
    | some (b, n, a) =>
      { st with remaining := b ++ ' ' :: a, patch := { st.patch with priority := some n } }
    | none => st

/-- Stage 2: project, quoted form over simple-token form. -/
def stageProject (st : ParseState) : ParseState :=
  match searchRe (quotedCapM '+') st.remaining with
  | some (b, cap, a) =>
    { st with remaining := b ++ ' ' :: a,
              patch := { st.patch with project_name := some (String.mk (trimL cap)) } }
  | none =>
    match searchRe (simpleCapM '+') st.remaining with
    | some (b, cap, a) =>
      { st with remaining := b ++ ' ' :: a,
                patch := { st.patch with project_name := some (String.mk (trimL cap)) } }
    | none => st

/-- Repeated global matching: collect all captures left to right and
replace each match with a space (the `exec` loop plus `replace(re, ' ')`
with the `g` flag). -/
def collectAll (m : Option Char → List Char → Option (List Char × List Char)) :
    Nat → List Char → List (List Char) × List Char
  | 0, s => ([], s)
  | Nat.succ k, s =>
    match searchRe m s with
    | some (b, cap, a) =>
      let r := collectAll m k a
      (cap :: r.1, b ++ ' ' :: r.2)
    | none => ([], s)

/-- Stage 3: labels, all quoted matches then all simple matches. -/
def stageLabels (st : ParseState) : ParseState :=
  let q := collectAll (quotedCapM '*') (st.remaining.length + 1) st.remaining
  let sp := collectAll (simpleCapM '*') (q.2.length + 1) q.2
  let labs := (q.1 ++ sp.1).map (fun l => String.mk (trimL l))
  if labs.isEmpty then { st with remaining := sp.2 }
  else { st with remaining := sp.2, patch := { st.patch with labels := some labs } }

/-- Stage 4: explicit time, colon form over hour-only form. -/
def stageTime (st : ParseState) : ParseState :=
  match searchRe explicitTimeM st.remaining with
  | some (b, hm, a) =>
    { st with remaining := b ++ ' ' :: a, parsedHour := some hm.1, parsedMinute := some hm.2 }
  | none =>
    match searchRe hourOnlyM st.remaining with
    | some (b, h, a) =>
      { st with remaining := b ++ ' ' :: a, parsedHour := some h, parsedMinute := some 0 }
    | none => st

/-- Stage 5: time-of-day marker. -/
def stageMarker (st : ParseState) : ParseState :=
  match searchRe timeMarkerM st.remaining with
  | some (b, hm, a) =>
    { st with remaining := b ++ ' ' :: a, markerHour := some hm.1, markerMinute := some hm.2 }
  | none => st

/-- Stage 6: the five recurrence keywords, first match wins. -/
def stageRecurKeywords (st : ParseState) : ParseState :=
  match searchRe everyDayM st.remaining with
  | some (b, _, a) =>
    { st with remaining := b ++ ' ' :: a,
              patch := { st.patch with repeat_after := some 86400, repeat_mode := some 0 } }
  | none =>
    match searchRe everyWeekM st.remaining with
    | some (b, _, a) =>
      { st with remaining := b ++ ' ' :: a,
                patch := { st.patch with repeat_after := some 604800, repeat_mode := some 0 } }
    | none =>
      match searchRe everyMonthM st.remaining with
      | some (b, _, a) =>
        { st with remaining := b ++ ' ' :: a,
                  patch := { st.patch with repeat_mode := some 1 } }
      | none =>
        match searchRe everyHourM st.remaining with
        | some (b, _, a) =>
          { st with remaining := b ++ ' ' :: a,
                    patch := { st.patch with repeat_after := some 3600, repeat_mode := some 0 } }
        | none =>
          match searchRe everyNHoursM st.remaining with
          | some (b, n, a) =>
            { st with remaining := b ++ ' ' :: a,
                      patch := { st.patch with repeat_after := some (3600 * n),
                                               repeat_mode := some 0 } }
          | none => st

/-- Stage 6b: the "second day of each week" idiom. -/
def stageSecondDay (now : JsDate) (st : ParseState) : ParseState :=
  match searchRe secondDayM st.remaining with
  | some (b, _, a) =>
    if st.patch.due_date = none then
      let p1 :=
        if st.patch.repeat_after = none ∧ st.patch.repeat_mode = none then
          { st.patch with repeat_after := some 604800, repeat_mode := some 0 }
        else st.patch
      let base := nextWeekday (startOfDay now) 2 true
      { st with remaining := b ++ ' ' :: a,
                patch := { p1 with due_date := some (toIso (applyTime st base)) } }
    else st
  | none => st

/-- Stage 6c: `every <weekday>` recurrence (guard is the truthiness test
`!patch.due_date`). -/
def stageEveryWeekday (now : JsDate) (st : ParseState) : ParseState :=
  if dueTruthy st.patch then st
  else
    match searchRe everyWeekdayM st.remaining with
    | some (b, day, a) =>
      let p1 :=
        if st.patch.repeat_after = none ∧ st.patch.repeat_mode = none then
          { st.patch with repeat_after := some 604800, repeat_mode := some 0 }
        else st.patch
      let base := nextWeekday (startOfDay now) (day : Int) true
      { st with remaining := b ++ ' ' :: a,
                patch := { p1 with due_date := some (toIso (applyTime st base)) } }
    | none => st

/-- Stage 6d: `every <day-of-month>` recurrence (guard `!patch.due_date`). -/
def stageEveryDayOfMonth (now : JsDate) (st : ParseState) : ParseState :=
  if dueTruthy st.patch then st
  else
    match searchRe everyDayOfMonthM st.remaining with
    | some (b, day, a) =>
      let p1 :=
        if st.patch.repeat_after = none ∧ st.patch.repeat_mode = none then
          { st.patch with repeat_mode := some 1 }
        else st.patch
      let base := nearestDayOfMonth (startOfDay now) (day : Int)
      { st with remaining := b ++ ' ' :: a,
                patch := { p1 with due_date := some (toIso (applyTime st base)) } }
    | none => st

/-- Stage 7: one-shot date expressions, evaluated only while `due_date`
is unset. -/
def stageDateExprs (now : JsDate) (st : ParseState) : ParseState :=
  if st.patch.due_date = none then
    match searchRe todayM st.remaining with
    | some (b, _, a) =>
      { st with remaining := b ++ ' ' :: a,
                patch := { st.patch with due_date := some (toIso (applyTime st (startOfDay now))) } }
    | none =>
      match searchRe tomorrowM st.remaining with
      | some (b, _, a) =>
        { st with remaining := b ++ ' ' :: a,
                  patch := { st.patch with
                    due_date := some (toIso (applyTime st (startOfDay (addDays now 1)))) } }
      | none =>
        match searchRe dayAfterTomorrowM st.remaining with
        | some (b, _, a) =>
          { st with remaining := b ++ ' ' :: a,
                    patch := { st.patch with
                      due_date := some (toIso (applyTime st (startOfDay (addDays now 2)))) } }
        | none =>
          match searchRe inNDaysM st.remaining with
          | some (b, n, a) =>
            { st with remaining := b ++ ' ' :: a,
                      patch := { st.patch with
                        due_date := some (toIso (applyTime st (startOfDay (addDays now (n : Int))))) } }
          | none =>
            match searchRe weekdayOnceM st.remaining with
            | some (b, day, a) =>
              { st with remaining := b ++ ' ' :: a,
                        patch := { st.patch with
                          due_date := some (toIso (applyTime st
                            (nextWeekday (startOfDay now) (day : Int) false))) } }
            | none => st
  else st

/-- Stage 8: time-only input, with rollover to tomorrow when the instant
has already passed. -/
def stageTimeOnly (now : JsDate) (st : ParseState) : ParseState :=
  if st.patch.due_date = none then
    match effectiveHour st, effectiveMinute st with
    | some h, some m =>
      let candidate := atTime (startOfDay now) (h : Int) (m : Int)
      if candidate < now then
        { st with patch := { st.patch with
            due_date := some (toIso (atTime (startOfDay (addDays now 1)) (h : Int) (m : Int))) } }
      else
        { st with patch := { st.patch with due_date := some (toIso candidate) } }
    | _, _ => st
  else st

/-- Stage 9: sub-daily interval recurrence gets the next hour boundary. -/
def stageHourlyDue (now : JsDate) (st : ParseState) : ParseState :=
  match st.patch.repeat_after with
  | some ra =>
    if ra < 86400 ∧ st.patch.due_date = none then
      { st with patch := { st.patch with due_date := some (toIso (ceilToHour now)) } }
    else st
  | none => st

/-- Stage 10: monthly recurrence falls back to today (or tomorrow) at the
effective time. -/
def stageMonthlyDue (now : JsDate) (st : ParseState) : ParseState :=
  if st.patch.repeat_mode = some 1 ∧ st.patch.due_date = none then
    let candidate := applyTime st (startOfDay now)
    if candidate < now then
      { st with patch := { st.patch with
          due_date := some (toIso (applyTime st (startOfDay (addDays now 1)))) } }
    else
      { st with patch := { st.patch with due_date := some (toIso candidate) } }
  else st

def runStages (now : JsDate) (st : ParseState) : ParseState :=
  stageMonthlyDue now (stageHourlyDue now (stageTimeOnly now (stageDateExprs now
    (stageEveryDayOfMonth now (stageEveryWeekday now (stageSecondDay now
      (stageRecurKeywords (stageMarker (stageTime (stageLabels (stageProject
        (stagePriority st))))))))))))

/-- The final pipeline state for a given input. -/
def coreState (text : String) (now : JsDate) : ParseState :=
  runStages now (initState text.data)

/-- The `hasMeaningfulPatch` test of the source. -/
def hasMeaningful (p : ParsedTaskPatch) : Bool :=
  p.due_date.isSome || p.priority.isSome || p.project_name.isSome ||
    (match p.labels with | some l => !l.isEmpty | none => false) ||
    p.repeat_after.isSome || p.repeat_mode.isSome

/-- The cleaned-title candidate (stage 11's `cleaned`). -/
def cleanedOf (text : String) (now : JsDate) : List Char :=
  trimL (collapseWs (coreState text now).remaining)

/-- Stage 11: the patch after the cleaned-title computation. -/
def finalPatch (text : String) (now : JsDate) : ParsedTaskPatch :=
  let cleaned := cleanedOf text now
  if cleaned ≠ [] ∧ lowerL cleaned ≠ lowerL (trimL text.data) then
    { (coreState text now).patch with cleaned_title := some (String.mk (capFirst cleaned)) }
  else (coreState text now).patch

/-- `parseQuickAddRu`. -/
def parseQuickAddRu (text : String) (now : JsDate) : Option ParsedTaskPatch :=
  if trimL text.data = [] then none
  else if hasMeaningful (finalPatch text now) || (finalPatch text now).cleaned_title.isSome then
    some (finalPatch text now)
  else none

/-- The reference instant of the spec's testable properties,
2024-01-10T12:00:00Z (a Wednesday). -/
def NOW : JsDate := mkUtc 2024 1 10 12 0

/-- Modelled from the spec, §4.9 (Day-of-Month Resolver), stated in the
spec's own words for comparison with the source's `nearestDayOfMonth`:
clamp the day to the current month's length; if the clamped candidate's
date is not strictly before the reference date's start-of-day, use it;
otherwise advance one month and clamp the day to that month's length. -/
def nearestDayOfMonthSpec (ref : JsDate) (day : Int) : JsDate :=
  let clamped := min day (getDaysInMonth ref)
  let candidate := mkDateDay (getFullYear ref) (getMonth0 ref) clamped
  if ¬candidate < startOfDay ref then candidate
  else
    let next := addMonths ref 1
    mkDateDay (getFullYear next) (getMonth0 next) (min day (getDaysInMonth next))

/-- State of claim C4's witness: a parse state whose due date is already
set, facing a buffer that would otherwise match several date stages. -/
def c4state : ParseState :=
  ⟨"сегодня в 18:00 каждый день".data,
   { due_date := some "2024-01-09T23:59:00.000Z" }, none, none, none, none⟩

/-- The repeat-field invariant maintained along the pipeline: the mode is
never the reserved value 3, and an interval length is only ever
accompanied by mode 0. -/
def goodRepeat (p : ParsedTaskPatch) : Prop :=
  (p.repeat_mode = none ∨ p.repeat_mode = some 0 ∨ p.repeat_mode = some 1) ∧
  (p.repeat_after.isSome → p.repeat_mode = some 0)

/-- Patch produced for claim C7's witness input. -/
def pC7 : ParsedTaskPatch :=
  { due_date := some "2024-01-10T23:59:00.000Z", repeat_mode := some 1,
    cleaned_title := some "Z z" }

/-- Patch produced for claim C9's witness input. -/
def pC9 : ParsedTaskPatch :=
  { repeat_after := some 86400, repeat_mode := some 0, cleaned_title := some "Z z" }

/-! ### Supporting lemmas -/

theorem dropSpaces_length_le (s : List Char) : (dropSpaces s).length ≤ s.length := by
  induction s with
  | nil => simp [dropSpaces]
  | cons c cs ih =>
    by_cases h : isSpace c = true
    · simpa [dropSpaces, List.dropWhile, h] using Nat.le_succ_of_le ih
    · simp [dropSpaces, List.dropWhile, h]

theorem goodRepeat_congr {p q : ParsedTaskPatch}
    (hra : p.repeat_after = q.repeat_after) (hm : p.repeat_mode = q.repeat_mode)
    (h : goodRepeat q) : goodRepeat p := by
  unfold goodRepeat at h ⊢
  rw [hra, hm]
  exact h

theorem repeat_eq_stagePriority (st : ParseState) :
    (stagePriority st).patch.repeat_after = st.patch.repeat_after ∧
    (stagePriority st).patch.repeat_mode = st.patch.repeat_mode := by
  cases h1 : searchRe prioNumM st.remaining with
  | some r => obtain ⟨b, n, a⟩ := r; simp [stagePriority, h1]
  | none =>
    cases h2 : searchRe prioWordM st.remaining with
    | some r => obtain ⟨b, n, a⟩ := r; simp [stagePriority, h1, h2]
    | none => simp [stagePriority, h1, h2]

theorem repeat_eq_stageProject (st : ParseState) :
    (stageProject st).patch.repeat_after = st.patch.repeat_after ∧
    (stageProject st).patch.repeat_mode = st.patch.repeat_mode := by
  cases h1 : searchRe (quotedCapM '+') st.remaining with
  | some r => obtain ⟨b, n, a⟩ := r; simp [stageProject, h1]
  | none =>
    cases h2 : searchRe (simpleCapM '+') st.remaining with
    | some r => obtain ⟨b, n, a⟩ := r; simp [stageProject, h1, h2]
    | none => simp [stageProject, h1, h2]

theorem repeat_eq_stageLabels (st : ParseState) :
    (stageLabels st).patch.repeat_after = st.patch.repeat_after ∧
    (stageLabels st).patch.repeat_mode = st.patch.repeat_mode := by
  unfold stageLabels
  dsimp only
  split <;> simp

theorem repeat_eq_stageTime (st : ParseState) :
    (stageTime st).patch.repeat_after = st.patch.repeat_after ∧
    (stageTime st).patch.repeat_mode = st.patch.repeat_mode := by
  cases h1 : searchRe explicitTimeM st.remaining with
  | some r => obtain ⟨b, n, a⟩ := r; simp [stageTime, h1]
  | none =>
    cases h2 : searchRe hourOnlyM st.remaining with
    | some r => obtain ⟨b, n, a⟩ := r; simp [stageTime, h1, h2]
    | none => simp [stageTime, h1, h2]

theorem repeat_eq_stageMarker (st : ParseState) :
    (stageMarker st).patch.repeat_after = st.patch.repeat_after ∧
    (stageMarker st).patch.repeat_mode = st.patch.repeat_mode := by
  cases h1 : searchRe timeMarkerM st.remaining with
  | some r => obtain ⟨b, n, a⟩ := r; simp [stageMarker, h1]
  | none => simp [stageMarker, h1]

theorem repeat_eq_stageDateExprs (now : JsDate) (st : ParseState) :
    (stageDateExprs now st).patch.repeat_after = st.patch.repeat_after ∧
    (stageDateExprs now st).patch.repeat_mode = st.patch.repeat_mode := by
  unfold stageDateExprs
  by_cases hd : st.patch.due_date = none
  · simp only [hd, if_true]
    cases h1 : searchRe todayM st.remaining with
    | some r => obtain ⟨b, u, a⟩ := r; simp
    | none =>
      cases h2 : searchRe tomorrowM st.remaining with
      | some r => obtain ⟨b, u, a⟩ := r; simp
      | none =>
        cases h3 : searchRe dayAfterTomorrowM st.remaining with
        | some r => obtain ⟨b, u, a⟩ := r; simp
        | none =>
          cases h4 : searchRe inNDaysM st.remaining with
          | some r => obtain ⟨b, n, a⟩ := r; simp
          | none =>
            cases h5 : searchRe weekdayOnceM st.remaining with
            | some r => obtain ⟨b, n, a⟩ := r; simp
            | none => simp
  · simp [hd]

theorem repeat_eq_stageTimeOnly (now : JsDate) (st : ParseState) :
    (stageTimeOnly now st).patch.repeat_after = st.patch.repeat_after ∧
    (stageTimeOnly now st).patch.repeat_mode = st.patch.repeat_mode := by
  unfold stageTimeOnly
  by_cases hd : st.patch.due_date = none
  · simp only [hd, if_true]
    cases h1 : effectiveHour st with
    | some h =>
      cases h2 : effectiveMinute st with
      | some m =>
        by_cases hc : atTime (startOfDay now) (h : Int) (m : Int) < now <;> simp [hc]
      | none => simp
    | none => simp
  · simp [hd]

theorem repeat_eq_stageHourlyDue (now : JsDate) (st : ParseState) :
    (stageHourlyDue now st).patch.repeat_after = st.patch.repeat_after ∧
    (stageHourlyDue now st).patch.repeat_mode = st.patch.repeat_mode := by
  unfold stageHourlyDue
  cases hra : st.patch.repeat_after with
  | some ra =>
    by_cases hc : ra < 86400 ∧ st.patch.due_date = none <;> simp [hra, hc]
  | none => exact ⟨hra, rfl⟩

theorem repeat_eq_stageMonthlyDue (now : JsDate) (st : ParseState) :
    (stageMonthlyDue now st).patch.repeat_after = st.patch.repeat_after ∧
    (stageMonthlyDue now st).patch.repeat_mode = st.patch.repeat_mode := by
  unfold stageMonthlyDue
  by_cases hc : st.patch.repeat_mode = some 1 ∧ st.patch.due_date = none
  · by_cases hlt : applyTime st (startOfDay now) < now <;> simp [hc, hlt]
  · simp [hc]

theorem goodRepeat_stageRecurKeywords (st : ParseState)
    (hra : st.patch.repeat_after = none) (hm : st.patch.repeat_mode = none) :
    goodRepeat (stageRecurKeywords st).patch := by
  unfold stageRecurKeywords
  cases h1 : searchRe everyDayM st.remaining with
  | some r => obtain ⟨b, u, a⟩ := r; simp [goodRepeat]
  | none =>
    cases h2 : searchRe everyWeekM st.remaining with
    | some r => obtain ⟨b, u, a⟩ := r; simp [goodRepeat]
    | none =>
      cases h3 : searchRe everyMonthM st.remaining with
      | some r => obtain ⟨b, u, a⟩ := r; simp [goodRepeat, hra]
      | none =>
        cases h4 : searchRe everyHourM st.remaining with
        | some r => obtain ⟨b, u, a⟩ := r; simp [goodRepeat]
        | none =>
          cases h5 : searchRe everyNHoursM st.remaining with
          | some r => obtain ⟨b, n, a⟩ := r; simp [goodRepeat]
          | none => simp [goodRepeat, hra, hm]

theorem goodRepeat_stageSecondDay (now : JsDate) (st : ParseState)
    (h : goodRepeat st.patch) : goodRepeat (stageSecondDay now st).patch := by
  unfold stageSecondDay
  cases hs : searchRe secondDayM st.remaining with
  | some r =>
    obtain ⟨b, u, a⟩ := r
    by_cases hd : st.patch.due_date = none
    · by_cases hb : st.patch.repeat_after = none ∧ st.patch.repeat_mode = none
      · simp [hd, hb, goodRepeat]
      · simp only [hd, hb, if_true, if_false]
        exact goodRepeat_congr (by simp) (by simp) h
    · simp only [hd, if_false]
      exact h
  | none => exact h

theorem goodRepeat_stageEveryWeekday (now : JsDate) (st : ParseState)
    (h : goodRepeat st.patch) : goodRepeat (stageEveryWeekday now st).patch := by
  unfold stageEveryWeekday
  by_cases ht : dueTruthy st.patch
  · simp only [ht, if_true]
    exact h
  · simp only [ht, if_false]
    cases hs : searchRe everyWeekdayM st.remaining with
    | some r =>
      obtain ⟨b, day, a⟩ := r
      by_cases hb : st.patch.repeat_after = none ∧ st.patch.repeat_mode = none
      · simp [hb, goodRepeat]
      · simp only [hb, if_true, if_false]
        exact goodRepeat_congr (by simp) (by simp) h
    | none => exact h

theorem goodRepeat_stageEveryDayOfMonth (now : JsDate) (st : ParseState)
    (h : goodRepeat st.patch) : goodRepeat (stageEveryDayOfMonth now st).patch := by
  unfold stageEveryDayOfMonth
  by_cases ht : dueTruthy st.patch
  · simp only [ht, if_true]
    exact h
  · simp only [ht, if_false]
    cases hs : searchRe everyDayOfMonthM st.remaining with
    | some r =>
      obtain ⟨b, day, a⟩ := r
      by_cases hb : st.patch.repeat_after = none ∧ st.patch.repeat_mode = none
      · simp [hb, goodRepeat, hb.1]
      · simp only [hb, if_true, if_false]
        exact goodRepeat_congr (by simp) (by simp) h
    | none => exact h

theorem goodRepeat_core (text : String) (now : JsDate) :
    goodRepeat (coreState text now).patch := by
  unfold coreState runStages
  set s0 := initState text.data with hs0
  set s1 := stagePriority s0 with hs1
  set s2 := stageProject s1 with hs2
  set s3 := stageLabels s2 with hs3
  set s4 := stageTime s3 with hs4
  set s5 := stageMarker s4 with hs5
  have hra5 : s5.patch.repeat_after = none := by
    rw [hs5, hs4, hs3, hs2, hs1]
    rw [(repeat_eq_stageMarker _).1, (repeat_eq_stageTime _).1, (repeat_eq_stageLabels _).1,
      (repeat_eq_stageProject _).1, (repeat_eq_stagePriority _).1]
    rfl
  have hm5 : s5.patch.repeat_mode = none := by
    rw [hs5, hs4, hs3, hs2, hs1]
    rw [(repeat_eq_stageMarker _).2, (repeat_eq_stageTime _).2, (repeat_eq_stageLabels _).2,
      (repeat_eq_stageProject _).2, (repeat_eq_stagePriority _).2]
    rfl
  have g6 := goodRepeat_stageRecurKeywords s5 hra5 hm5
  have g7 := goodRepeat_stageSecondDay now _ g6
  have g8 := goodRepeat_stageEveryWeekday now _ g7
  have g9 := goodRepeat_stageEveryDayOfMonth now _ g8
  have g10 := goodRepeat_congr (repeat_eq_stageDateExprs now _).1
    (repeat_eq_stageDateExprs now _).2 g9
  have g11 := goodRepeat_congr (repeat_eq_stageTimeOnly now _).1
    (repeat_eq_stageTimeOnly now _).2 g10
  have g12 := goodRepeat_congr (repeat_eq_stageHourlyDue now _).1
    (repeat_eq_stageHourlyDue now _).2 g11
  exact goodRepeat_congr (repeat_eq_stageMonthlyDue now _).1
    (repeat_eq_stageMonthlyDue now _).2 g12

theorem title_eq_stagePriority (st : ParseState) :
    (stagePriority st).patch.cleaned_title = st.patch.cleaned_title := by
  cases h1 : searchRe prioNumM st.remaining with
  | some r => obtain ⟨b, n, a⟩ := r; simp [stagePriority, h1]
  | none =>
    cases h2 : searchRe prioWordM st.remaining with
    | some r => obtain ⟨b, n, a⟩ := r; simp [stagePriority, h1, h2]
    | none => simp [stagePriority, h1, h2]

theorem title_eq_stageProject (st : ParseState) :
    (stageProject st).patch.cleaned_title = st.patch.cleaned_title := by
  cases h1 : searchRe (quotedCapM '+') st.remaining with
  | some r => obtain ⟨b, n, a⟩ := r; simp [stageProject, h1]
  | none =>
    cases h2 : searchRe (simpleCapM '+') st.remaining with
    | some r => obtain ⟨b, n, a⟩ := r; simp [stageProject, h1, h2]
    | none => simp [stageProject, h1, h2]

theorem title_eq_stageLabels (st : ParseState) :
    (stageLabels st).patch.cleaned_title = st.patch.cleaned_title := by
  unfold stageLabels
  dsimp only
  split <;> simp

theorem title_eq_stageTime (st : ParseState) :
    (stageTime st).patch.cleaned_title = st.patch.cleaned_title := by
  cases h1 : searchRe explicitTimeM st.remaining with
  | some r => obtain ⟨b, n, a⟩ := r; simp [stageTime, h1]
  | none =>
    cases h2 : searchRe hourOnlyM st.remaining with
    | some r => obtain ⟨b, n, a⟩ := r; simp [stageTime, h1, h2]
    | none => simp [stageTime, h1, h2]

theorem title_eq_stageMarker (st : ParseState) :
    (stageMarker st).patch.cleaned_title = st.patch.cleaned_title := by
  cases h1 : searchRe timeMarkerM st.remaining with
  | some r => obtain ⟨b, n, a⟩ := r; simp [stageMarker, h1]
  | none => simp [stageMarker, h1]

theorem title_eq_stageRecurKeywords (st : ParseState) :
    (stageRecurKeywords st).patch.cleaned_title = st.patch.cleaned_title := by
  unfold stageRecurKeywords
  cases h1 : searchRe everyDayM st.remaining with
  | some r => obtain ⟨b, u, a⟩ := r; simp
  | none =>
    cases h2 : searchRe everyWeekM st.remaining with
    | some r => obtain ⟨b, u, a⟩ := r; simp
    | none =>
      cases h3 : searchRe everyMonthM st.remaining with
      | some r => obtain ⟨b, u, a⟩ := r; simp
      | none =>
        cases h4 : searchRe everyHourM st.remaining with
        | some r => obtain ⟨b, u, a⟩ := r; simp
        | none =>
          cases h5 : searchRe everyNHoursM st.remaining with
          | some r => obtain ⟨b, n, a⟩ := r; simp
          | none => simp

theorem title_eq_stageSecondDay (now : JsDate) (st : ParseState) :
    (stageSecondDay now st).patch.cleaned_title = st.patch.cleaned_title := by
  unfold stageSecondDay
  cases hs : searchRe secondDayM st.remaining with
  | some r =>
    obtain ⟨b, u, a⟩ := r
    by_cases hd : st.patch.due_date = none
    · by_cases hb : st.patch.repeat_after = none ∧ st.patch.repeat_mode = none <;>
        simp [hd, hb]
    · simp [hd]
  | none => rfl

theorem title_eq_stageEveryWeekday (now : JsDate) (st : ParseState) :
    (stageEveryWeekday now st).patch.cleaned_title = st.patch.cleaned_title := by
  unfold stageEveryWeekday
  by_cases ht : dueTruthy st.patch
  · simp [ht]
  · simp only [ht, if_false]
    cases hs : searchRe everyWeekdayM st.remaining with
    | some r =>
      obtain ⟨b, day, a⟩ := r
      by_cases hb : st.patch.repeat_after = none ∧ st.patch.repeat_mode = none <;> simp [hb]
    | none => rfl

theorem title_eq_stageEveryDayOfMonth (now : JsDate) (st : ParseState) :
    (stageEveryDayOfMonth now st).patch.cleaned_title = st.patch.cleaned_title := by
  unfold stageEveryDayOfMonth
  by_cases ht : dueTruthy st.patch
  · simp [ht]
  · simp only [ht, if_false]
    cases hs : searchRe everyDayOfMonthM st.remaining with
    | some r =>
      obtain ⟨b, day, a⟩ := r
      by_cases hb : st.patch.repeat_after = none ∧ st.patch.repeat_mode = none <;> simp [hb]
    | none => rfl

theorem title_eq_stageDateExprs (now : JsDate) (st : ParseState) :
    (stageDateExprs now st).patch.cleaned_title = st.patch.cleaned_title := by
  unfold stageDateExprs
  by_cases hd : st.patch.due_date = none
  · simp only [hd, if_true]
    cases h1 : searchRe todayM st.remaining with
    | some r => obtain ⟨b, u, a⟩ := r; simp
    | none =>
      cases h2 : searchRe tomorrowM st.remaining with
      | some r => obtain ⟨b, u, a⟩ := r; simp
      | none =>
        cases h3 : searchRe dayAfterTomorrowM st.remaining with
        | some r => obtain ⟨b, u, a⟩ := r; simp
        | none =>
          cases h4 : searchRe inNDaysM st.remaining with
          | some r => obtain ⟨b, n, a⟩ := r; simp
          | none =>
            cases h5 : searchRe weekdayOnceM st.remaining with
            | some r => obtain ⟨b, n, a⟩ := r; simp
            | none => simp
  · simp [hd]

theorem title_eq_stageTimeOnly (now : JsDate) (st : ParseState) :
    (stageTimeOnly now st).patch.cleaned_title = st.patch.cleaned_title := by
  unfold stageTimeOnly
  by_cases hd : st.patch.due_date = none
  · simp only [hd, if_true]
    cases h1 : effectiveHour st with
    | some h =>
      cases h2 : effectiveMinute st with
      | some m =>
        by_cases hc : atTime (startOfDay now) (h : Int) (m : Int) < now <;> simp [hc]
      | none => simp
    | none => simp
  · simp [hd]

theorem title_eq_stageHourlyDue (now : JsDate) (st : ParseState) :
    (stageHourlyDue now st).patch.cleaned_title = st.patch.cleaned_title := by
  unfold stageHourlyDue
  cases hra : st.patch.repeat_after with
  | some ra =>
    by_cases hc : ra < 86400 ∧ st.patch.due_date = none <;> simp [hra, hc]
  | none => rfl

theorem title_eq_stageMonthlyDue (now : JsDate) (st : ParseState) :
    (stageMonthlyDue now st).patch.cleaned_title = st.patch.cleaned_title := by
  unfold stageMonthlyDue
  by_cases hc : st.patch.repeat_mode = some 1 ∧ st.patch.due_date = none
  · by_cases hlt : applyTime st (startOfDay now) < now <;> simp [hc, hlt]
  · simp [hc]

theorem title_core_none (text : String) (now : JsDate) :
    (coreState text now).patch.cleaned_title = none := by
  unfold coreState runStages
  rw [title_eq_stageMonthlyDue, title_eq_stageHourlyDue, title_eq_stageTimeOnly,
    title_eq_stageDateExprs, title_eq_stageEveryDayOfMonth, title_eq_stageEveryWeekday,
    title_eq_stageSecondDay, title_eq_stageRecurKeywords, title_eq_stageMarker,
    title_eq_stageTime, title_eq_stageLabels, title_eq_stageProject, title_eq_stagePriority]
  rfl

theorem collectAll_nil (m : Option Char → List Char → Option (List Char × List Char))
    (n : Nat) (s : List Char) (h : (collectAll m (n + 1) s).1 = []) :
    (collectAll m (n + 1) s).2 = s := by
  cases hs : searchRe m s with
  | some r => obtain ⟨b, cap, a⟩ := r; simp [collectAll, hs] at h
  | none => simp [collectAll, hs]

theorem stagePriority_id (st : ParseState)
    (h : (stagePriority st).patch.priority = none) : stagePriority st = st := by
  cases h1 : searchRe prioNumM st.remaining with
  | some r => obtain ⟨b, n, a⟩ := r; simp [stagePriority, h1] at h
  | none =>
    cases h2 : searchRe prioWordM st.remaining with
    | some r => obtain ⟨b, n, a⟩ := r; simp [stagePriority, h1, h2] at h
    | none => simp [stagePriority, h1, h2]

theorem stageProject_id (st : ParseState)
    (h : (stageProject st).patch.project_name = none) : stageProject st = st := by
  cases h1 : searchRe (quotedCapM '+') st.remaining with
  | some r => obtain ⟨b, n, a⟩ := r; simp [stageProject, h1] at h
  | none =>
    cases h2 : searchRe (simpleCapM '+') st.remaining with
    | some r => obtain ⟨b, n, a⟩ := r; simp [stageProject, h1, h2] at h
    | none => simp [stageProject, h1, h2]

theorem stageLabels_id (st : ParseState)
    (h : (stageLabels st).patch.labels = none ∨ (stageLabels st).patch.labels = some []) :
    stageLabels st = st := by
  cases hq : searchRe (quotedCapM '*') st.remaining with
  | some r =>
    obtain ⟨b, cap, a⟩ := r
    simp [stageLabels, collectAll, hq] at h
  | none =>
    cases hsp : searchRe (simpleCapM '*') st.remaining with
    | some r =>
      obtain ⟨b, cap, a⟩ := r
      simp [stageLabels, collectAll, hq, hsp] at h
    | none => simp [stageLabels, collectAll, hq, hsp]

theorem stageTime_id (st : ParseState)
    (h : (stageTime st).parsedHour = none) : stageTime st = st := by
  cases h1 : searchRe explicitTimeM st.remaining with
  | some r => obtain ⟨b, n, a⟩ := r; simp [stageTime, h1] at h
  | none =>
    cases h2 : searchRe hourOnlyM st.remaining with
    | some r => obtain ⟨b, n, a⟩ := r; simp [stageTime, h1, h2] at h
    | none => simp [stageTime, h1, h2]

theorem stageMarker_id (st : ParseState)
    (h : (stageMarker st).markerHour = none) : stageMarker st = st := by
  cases h1 : searchRe timeMarkerM st.remaining with
  | some r => obtain ⟨b, n, a⟩ := r; simp [stageMarker, h1] at h
  | none => simp [stageMarker, h1]

theorem stageRecurKeywords_id (st : ParseState)
    (h1 : (stageRecurKeywords st).patch.repeat_after = none)
    (h2 : (stageRecurKeywords st).patch.repeat_mode = none) :
    stageRecurKeywords st = st := by
  cases k1 : searchRe everyDayM st.remaining with
  | some r => obtain ⟨b, u, a⟩ := r; simp [stageRecurKeywords, k1] at h1
  | none =>
    cases k2 : searchRe everyWeekM st.remaining with
    | some r => obtain ⟨b, u, a⟩ := r; simp [stageRecurKeywords, k1, k2] at h1
    | none =>
      cases k3 : searchRe everyMonthM st.remaining with
      | some r => obtain ⟨b, u, a⟩ := r; simp [stageRecurKeywords, k1, k2, k3] at h2
      | none =>
        cases k4 : searchRe everyHourM st.remaining with
        | some r => obtain ⟨b, u, a⟩ := r; simp [stageRecurKeywords, k1, k2, k3, k4] at h1
        | none =>
          cases k5 : searchRe everyNHoursM st.remaining with
          | some r =>
            obtain ⟨b, n, a⟩ := r
            simp [stageRecurKeywords, k1, k2, k3, k4, k5] at h1
          | none => simp [stageRecurKeywords, k1, k2, k3, k4, k5]

theorem stageSecondDay_id (now : JsDate) (st : ParseState)
    (h : (stageSecondDay now st).patch.due_date = none) : stageSecondDay now st = st := by
  cases hm : searchRe secondDayM st.remaining with
  | some r =>
    obtain ⟨b, u, a⟩ := r
    by_cases hd : st.patch.due_date = none
    · simp [stageSecondDay, hm, hd] at h
    · simp [stageSecondDay, hm, hd]
  | none => simp [stageSecondDay, hm]

theorem stageEveryWeekday_id (now : JsDate) (st : ParseState)
    (h : (stageEveryWeekday now st).patch.due_date = none) :
    stageEveryWeekday now st = st := by
  by_cases ht : dueTruthy st.patch
  · simp [stageEveryWeekday, ht]
  · cases hm : searchRe everyWeekdayM st.remaining with
    | some r => obtain ⟨b, day, a⟩ := r; simp [stageEveryWeekday, ht, hm] at h
    | none => simp [stageEveryWeekday, ht, hm]

theorem stageEveryDayOfMonth_id (now : JsDate) (st : ParseState)
    (h : (stageEveryDayOfMonth now st).patch.due_date = none) :
    stageEveryDayOfMonth now st = st := by
  by_cases ht : dueTruthy st.patch
  · simp [stageEveryDayOfMonth, ht]
  · cases hm : searchRe everyDayOfMonthM st.remaining with
    | some r => obtain ⟨b, day, a⟩ := r; simp [stageEveryDayOfMonth, ht, hm] at h
    | none => simp [stageEveryDayOfMonth, ht, hm]

theorem stageDateExprs_id (now : JsDate) (st : ParseState)
    (h : (stageDateExprs now st).patch.due_date = none) : stageDateExprs now st = st := by
  by_cases hd : st.patch.due_date = none
  · cases k1 : searchRe todayM st.remaining with
    | some r => obtain ⟨b, u, a⟩ := r; simp [stageDateExprs, hd, k1] at h
    | none =>
      cases k2 : searchRe tomorrowM st.remaining with
      | some r => obtain ⟨b, u, a⟩ := r; simp [stageDateExprs, hd, k1, k2] at h
      | none =>
        cases k3 : searchRe dayAfterTomorrowM st.remaining with
        | some r => obtain ⟨b, u, a⟩ := r; simp [stageDateExprs, hd, k1, k2, k3] at h
        | none =>
          cases k4 : searchRe inNDaysM st.remaining with
          | some r => obtain ⟨b, n, a⟩ := r; simp [stageDateExprs, hd, k1, k2, k3, k4] at h
          | none =>
            cases k5 : searchRe weekdayOnceM st.remaining with
            | some r =>
              obtain ⟨b, n, a⟩ := r
              simp [stageDateExprs, hd, k1, k2, k3, k4, k5] at h
            | none => simp [stageDateExprs, hd, k1, k2, k3, k4, k5]
  · simp [stageDateExprs, hd]

theorem stageTimeOnly_id (now : JsDate) (st : ParseState)
    (h : (stageTimeOnly now st).patch.due_date = none) :
    stageTimeOnly now st = st ∧
      (st.patch.due_date = none → effectiveHour st = none ∨ effectiveMinute st = none) := by
  by_cases hd : st.patch.due_date = none
  · cases h1 : effectiveHour st with
    | some hh =>
      cases h2 : effectiveMinute st with
      | some mm =>
        exfalso
        by_cases hc : atTime (startOfDay now) (hh : Int) (mm : Int) < now <;>
          simp [stageTimeOnly, hd, h1, h2, hc] at h
      | none => exact ⟨by simp [stageTimeOnly, hd, h1, h2], fun _ => Or.inr rfl⟩
    | none => exact ⟨by simp [stageTimeOnly, hd, h1], fun _ => Or.inl rfl⟩
  · exact ⟨by simp [stageTimeOnly, hd], fun hdd => absurd hdd hd⟩

theorem stageHourlyDue_id (now : JsDate) (st : ParseState)
    (h : (stageHourlyDue now st).patch.due_date = none) : stageHourlyDue now st = st := by
  cases hra : st.patch.repeat_after with
  | some ra =>
    by_cases hc : ra < 86400 ∧ st.patch.due_date = none
    · simp [stageHourlyDue, hra, hc] at h
    · simp [stageHourlyDue, hra, hc]
  | none => simp [stageHourlyDue, hra]

theorem stageMonthlyDue_id (now : JsDate) (st : ParseState)
    (h : (stageMonthlyDue now st).patch.due_date = none) : stageMonthlyDue now st = st := by
  by_cases hc : st.patch.repeat_mode = some 1 ∧ st.patch.due_date = none
  · exfalso
    by_cases hlt : applyTime st (startOfDay now) < now <;>
      simp [stageMonthlyDue, hc, hlt] at h
  · simp [stageMonthlyDue, hc]

theorem effectiveHour_none (st : ParseState) (h : effectiveHour st = none) :
    st.parsedHour = none ∧ st.markerHour = none := by
  cases hp : st.parsedHour with
  | some x => rw [effectiveHour, hp] at h; exact absurd h (by simp)
  | none => rw [effectiveHour, hp] at h; exact ⟨rfl, h⟩

theorem effectiveMinute_none (st : ParseState) (h : effectiveMinute st = none) :
    st.parsedMinute = none ∧ st.markerMinute = none := by
  cases hp : st.parsedMinute with
  | some x => rw [effectiveMinute, hp] at h; exact absurd h (by simp)
  | none => rw [effectiveMinute, hp] at h; exact ⟨rfl, h⟩

theorem hours_eq_stagePriority (st : ParseState) :
    (stagePriority st).parsedHour = st.parsedHour ∧
    (stagePriority st).parsedMinute = st.parsedMinute ∧
    (stagePriority st).markerHour = st.markerHour ∧
    (stagePriority st).markerMinute = st.markerMinute := by
  cases h1 : searchRe prioNumM st.remaining with
  | some r => obtain ⟨b, n, a⟩ := r; simp [stagePriority, h1]
  | none =>
    cases h2 : searchRe prioWordM st.remaining with
    | some r => obtain ⟨b, n, a⟩ := r; simp [stagePriority, h1, h2]
    | none => simp [stagePriority, h1, h2]

theorem hours_eq_stageProject (st : ParseState) :
    (stageProject st).parsedHour = st.parsedHour ∧
    (stageProject st).parsedMinute = st.parsedMinute ∧
    (stageProject st).markerHour = st.markerHour ∧
    (stageProject st).markerMinute = st.markerMinute := by
  cases h1 : searchRe (quotedCapM '+') st.remaining with
  | some r => obtain ⟨b, n, a⟩ := r; simp [stageProject, h1]
  | none =>
    cases h2 : searchRe (simpleCapM '+') st.remaining with
    | some r => obtain ⟨b, n, a⟩ := r; simp [stageProject, h1, h2]
    | none => simp [stageProject, h1, h2]

theorem hours_eq_stageLabels (st : ParseState) :
    (stageLabels st).parsedHour = st.parsedHour ∧
    (stageLabels st).parsedMinute = st.parsedMinute ∧
    (stageLabels st).markerHour = st.markerHour ∧
    (stageLabels st).markerMinute = st.markerMinute := by
  unfold stageLabels
  dsimp only
  split <;> simp

theorem stageTime_marker_eq (st : ParseState) :
    (stageTime st).markerHour = st.markerHour ∧
    (stageTime st).markerMinute = st.markerMinute := by
  cases h1 : searchRe explicitTimeM st.remaining with
  | some r => obtain ⟨b, n, a⟩ := r; simp [stageTime, h1]
  | none =>
    cases h2 : searchRe hourOnlyM st.remaining with
    | some r => obtain ⟨b, n, a⟩ := r; simp [stageTime, h1, h2]
    | none => simp [stageTime, h1, h2]

theorem stageTime_pairs (st : ParseState)
    (hp : st.parsedHour = none) (hm : st.parsedMinute = none) :
    ((stageTime st).parsedHour = none ∧ (stageTime st).parsedMinute = none) ∨
    ((stageTime st).parsedHour.isSome ∧ (stageTime st).parsedMinute.isSome) := by
  cases h1 : searchRe explicitTimeM st.remaining with
  | some r => obtain ⟨b, n, a⟩ := r; right; simp [stageTime, h1]
  | none =>
    cases h2 : searchRe hourOnlyM st.remaining with
    | some r => obtain ⟨b, n, a⟩ := r; right; simp [stageTime, h1, h2]
    | none => left; simp [stageTime, h1, h2, hp, hm]

theorem stageMarker_parsed_eq (st : ParseState) :
    (stageMarker st).parsedHour = st.parsedHour ∧
    (stageMarker st).parsedMinute = st.parsedMinute := by
  cases h1 : searchRe timeMarkerM st.remaining with
  | some r => obtain ⟨b, n, a⟩ := r; simp [stageMarker, h1]
  | none => simp [stageMarker, h1]

theorem stageMarker_pairs (st : ParseState)
    (hp : st.markerHour = none) (hm : st.markerMinute = none) :
    ((stageMarker st).markerHour = none ∧ (stageMarker st).markerMinute = none) ∨
    ((stageMarker st).markerHour.isSome ∧ (stageMarker st).markerMinute.isSome) := by
  cases h1 : searchRe timeMarkerM st.remaining with
  | some r => obtain ⟨b, n, a⟩ := r; right; simp [stageMarker, h1]
  | none => left; simp [stageMarker, h1, hp, hm]

/-- If the pipeline produced no meaningful field, every stage was the
identity: nothing was matched and the remaining buffer is the input. -/
theorem core_not_meaningful_id (text : String) (now : JsDate)
    (h : hasMeaningful (coreState text now).patch = false) :
    coreState text now = initState text.data := by
  unfold coreState runStages at h ⊢
  set s1 := stagePriority (initState text.data) with e1
  set s2 := stageProject s1 with e2
  set s3 := stageLabels s2 with e3
  set s4 := stageTime s3 with e4
  set s5 := stageMarker s4 with e5
  set s6 := stageRecurKeywords s5 with e6
  set s7 := stageSecondDay now s6 with e7
  set s8 := stageEveryWeekday now s7 with e8
  set s9 := stageEveryDayOfMonth now s8 with e9
  set s10 := stageDateExprs now s9 with e10
  set s11 := stageTimeOnly now s10 with e11
  set s12 := stageHourlyDue now s11 with e12
  have hd : (stageMonthlyDue now s12).patch.due_date = none := by
    cases hx : (stageMonthlyDue now s12).patch.due_date with
    | none => rfl
    | some v => unfold hasMeaningful at h; rw [hx] at h; simp at h
  have hp : (stageMonthlyDue now s12).patch.priority = none := by
    cases hx : (stageMonthlyDue now s12).patch.priority with
    | none => rfl
    | some v => unfold hasMeaningful at h; rw [hx] at h; simp at h
  have hj : (stageMonthlyDue now s12).patch.project_name = none := by
    cases hx : (stageMonthlyDue now s12).patch.project_name with
    | none => rfl
    | some v => unfold hasMeaningful at h; rw [hx] at h; simp at h
  have hl : (stageMonthlyDue now s12).patch.labels = none ∨
      (stageMonthlyDue now s12).patch.labels = some [] := by
    cases hx : (stageMonthlyDue now s12).patch.labels with
    | none => exact Or.inl rfl
    | some l =>
      cases l with
      | nil => exact Or.inr rfl
      | cons x xs => unfold hasMeaningful at h; rw [hx] at h; simp at h
  have ha : (stageMonthlyDue now s12).patch.repeat_after = none := by
    cases hx : (stageMonthlyDue now s12).patch.repeat_after with
    | none => rfl
    | some v => unfold hasMeaningful at h; rw [hx] at h; simp at h
  have hm2 : (stageMonthlyDue now s12).patch.repeat_mode = none := by
    cases hx : (stageMonthlyDue now s12).patch.repeat_mode with
    | none => rfl
    | some v => unfold hasMeaningful at h; rw [hx] at h; simp at h
  have E13 := stageMonthlyDue_id now s12 hd
  rw [E13] at hd hp hj hl ha hm2 ⊢
  rw [e12] at hd hp hj hl ha hm2 ⊢
  have E12 := stageHourlyDue_id now s11 hd
  rw [E12] at hd hp hj hl ha hm2 ⊢
  rw [e11] at hd hp hj hl ha hm2 ⊢
  have C11 := stageTimeOnly_id now s10 hd
  rw [C11.1] at hd hp hj hl ha hm2 ⊢
  have he : effectiveHour s10 = none ∨ effectiveMinute s10 = none := C11.2 hd
  rw [e10] at hd hp hj hl ha hm2 he ⊢
  have E10 := stageDateExprs_id now s9 hd
  rw [E10] at hd hp hj hl ha hm2 he ⊢
  rw [e9] at hd hp hj hl ha hm2 he ⊢
  have E9 := stageEveryDayOfMonth_id now s8 hd
  rw [E9] at hd hp hj hl ha hm2 he ⊢
  rw [e8] at hd hp hj hl ha hm2 he ⊢
  have E8 := stageEveryWeekday_id now s7 hd
  rw [E8] at hd hp hj hl ha hm2 he ⊢
  rw [e7] at hd hp hj hl ha hm2 he ⊢
  have E7 := stageSecondDay_id now s6 hd
  rw [E7] at hd hp hj hl ha hm2 he ⊢
  rw [e6] at hd hp hj hl ha hm2 he ⊢
  have E6 := stageRecurKeywords_id s5 ha hm2
  rw [E6] at hd hp hj hl ha hm2 he ⊢
  have p1 : s1.parsedHour = none ∧ s1.parsedMinute = none := by
    rw [e1]
    exact ⟨by rw [(hours_eq_stagePriority _).1]; rfl,
           by rw [(hours_eq_stagePriority _).2.1]; rfl⟩
  have p2 : s2.parsedHour = none ∧ s2.parsedMinute = none := by
    rw [e2]
    refine ⟨?_, ?_⟩
    · rw [(hours_eq_stageProject _).1]; exact p1.1
    · rw [(hours_eq_stageProject _).2.1]; exact p1.2
  have p3 : s3.parsedHour = none ∧ s3.parsedMinute = none := by
    rw [e3]
    refine ⟨?_, ?_⟩
    · rw [(hours_eq_stageLabels _).1]; exact p2.1
    · rw [(hours_eq_stageLabels _).2.1]; exact p2.2
  have m1 : s1.markerHour = none ∧ s1.markerMinute = none := by
    rw [e1]
    exact ⟨by rw [(hours_eq_stagePriority _).2.2.1]; rfl,
           by rw [(hours_eq_stagePriority _).2.2.2]; rfl⟩
  have m2 : s2.markerHour = none ∧ s2.markerMinute = none := by
    rw [e2]
    refine ⟨?_, ?_⟩
    · rw [(hours_eq_stageProject _).2.2.1]; exact m1.1
    · rw [(hours_eq_stageProject _).2.2.2]; exact m1.2
  have m3 : s3.markerHour = none ∧ s3.markerMinute = none := by
    rw [e3]
    refine ⟨?_, ?_⟩
    · rw [(hours_eq_stageLabels _).2.2.1]; exact m2.1
    · rw [(hours_eq_stageLabels _).2.2.2]; exact m2.2
  have m4 : s4.markerHour = none ∧ s4.markerMinute = none := by
    rw [e4]
    refine ⟨?_, ?_⟩
    · rw [(stageTime_marker_eq _).1]; exact m3.1
    · rw [(stageTime_marker_eq _).2]; exact m3.2
  have key : s5.markerHour = none ∧ s4.parsedHour = none := by
    rcases he with hH | hM
    · obtain ⟨hph, hmh⟩ := effectiveHour_none s5 hH
      refine ⟨hmh, ?_⟩
      rw [e5] at hph
      rw [(stageMarker_parsed_eq s4).1] at hph
      exact hph
    · obtain ⟨hpm, hmm⟩ := effectiveMinute_none s5 hM
      refine ⟨?_, ?_⟩
      · rcases stageMarker_pairs s4 m4.1 m4.2 with hc | hc
        · rw [e5]; exact hc.1
        · exfalso
          rw [e5] at hmm
          rw [hmm] at hc
          simp at hc
      · rcases stageTime_pairs s3 p3.1 p3.2 with hc | hc
        · rw [e4]; exact hc.1
        · exfalso
          have hm4 : s4.parsedMinute = none := by
            rw [e5] at hpm
            rw [(stageMarker_parsed_eq s4).2] at hpm
            exact hpm
          rw [e4] at hm4
          rw [hm4] at hc
          simp at hc
  obtain ⟨hmh, hph⟩ := key
  rw [e5] at hmh hd hp hj hl ⊢
  have E5 := stageMarker_id s4 hmh
  rw [E5] at hd hp hj hl ⊢
  rw [e4] at hph hd hp hj hl ⊢
  have E4 := stageTime_id s3 hph
  rw [E4] at hd hp hj hl ⊢
  rw [e3] at hd hp hj hl ⊢
  have E3 := stageLabels_id s2 hl
  rw [E3] at hd hp hj ⊢
  rw [e2] at hp hj ⊢
  have E2 := stageProject_id s1 hj
  rw [E2] at hp ⊢
  rw [e1] at hp ⊢
  have E1 := stagePriority_id (initState text.data) hp
  rw [E1]

theorem finalPatch_repeat_eq (text : String) (now : JsDate) :
    (finalPatch text now).repeat_after = (coreState text now).patch.repeat_after ∧
    (finalPatch text now).repeat_mode = (coreState text now).patch.repeat_mode := by
  unfold finalPatch
  by_cases h : cleanedOf text now ≠ [] ∧
      lowerL (cleanedOf text now) ≠ lowerL (trimL text.data) <;> simp [h]

theorem trimL_eq_nil_iff (s : List Char) : trimL s = [] ↔ ∀ c ∈ s, isSpace c := by
  unfold trimL dropSpaces
  rw [List.dropWhile_eq_nil_iff]
  constructor
  · intro h c hc
    have hc' : c ∈ s.reverse := List.mem_reverse.2 hc
    rw [← List.takeWhile_append_dropWhile (p := isSpace) (l := s.reverse)] at hc'
    rcases List.mem_append.1 hc' with h1 | h1
    · exact List.mem_takeWhile_imp h1
    · exact h c (List.mem_reverse.2 h1)
  · intro h c hc
    have hc' : c ∈ List.dropWhile isSpace s.reverse := List.mem_reverse.1 hc
    have hc2 : c ∈ s.reverse := (List.dropWhile_sublist _).subset hc'
    exact h c (List.mem_reverse.1 hc2)

theorem exists_nonspace_dropSpaces (s : List Char) (h : ∃ c ∈ s, ¬isSpace c = true) :
    ∃ c ∈ dropSpaces s, ¬isSpace c = true := by
  induction s with
  | nil => simp at h
  | cons a as ih =>
    by_cases ha : isSpace a = true
    · rw [dropSpaces, List.dropWhile_cons, if_pos ha]
      apply ih
      rcases h with ⟨c, hc, hns⟩
      rcases List.mem_cons.1 hc with he | hm
      · exact absurd (he ▸ ha) hns
      · exact ⟨c, hm, hns⟩
    · rw [dropSpaces, List.dropWhile_cons, if_neg ha]
      exact h

theorem exists_nonspace_collapseF (n : Nat) :
    ∀ s : List Char, (∃ c ∈ s, ¬isSpace c = true) →
      ∃ c ∈ collapseWsF n s, ¬isSpace c = true := by
  induction n with
  | zero => intro s h; simpa [collapseWsF] using h
  | succ k ih =>
    intro s h
    cases s with
    | nil => simp at h
    | cons c cs =>
      by_cases hrun : twoSpaceRun c cs = true
      · simp only [collapseWsF]
        rw [if_pos hrun]
        have hcsp : isSpace c = true := by
          have hrun2 := hrun
          unfold twoSpaceRun at hrun2
          rw [Bool.and_eq_true] at hrun2
          exact hrun2.1
        have hcs : ∃ x ∈ cs, ¬isSpace x = true := by
          rcases h with ⟨x, hx, hnx⟩
          rcases List.mem_cons.1 hx with he | hm
          · exact absurd (he ▸ hcsp) hnx
          · exact ⟨x, hm, hnx⟩
        obtain ⟨x, hx, hnx⟩ := ih (dropSpaces cs) (exists_nonspace_dropSpaces cs hcs)
        exact ⟨x, List.mem_cons_of_mem _ hx, hnx⟩
      · simp only [collapseWsF]
        rw [if_neg hrun]
        rcases h with ⟨x, hx, hnx⟩
        rcases List.mem_cons.1 hx with he | hm
        · exact ⟨c, List.mem_cons_self _ _, he ▸ hnx⟩
        · obtain ⟨y, hy, hny⟩ := ih cs ⟨x, hm, hnx⟩
          exact ⟨y, List.mem_cons_of_mem _ hy, hny⟩

/-- Collapsing whitespace runs cannot turn a non-blank buffer into a
blank one. -/
theorem cleaned_ne_nil (s : List Char) (h : trimL s ≠ []) : trimL (collapseWs s) ≠ [] := by
  intro hnil
  refine h ((trimL_eq_nil_iff s).2 ?_)
  intro c hc
  by_contra hns
  obtain ⟨x, hx, hnx⟩ := exists_nonspace_collapseF s.length s ⟨c, hc, hns⟩
  exact hnx ((trimL_eq_nil_iff _).1 hnil x hx)

theorem hasMeaningful_finalPatch (text : String) (now : JsDate) :
    hasMeaningful (finalPatch text now) = hasMeaningful (coreState text now).patch := by
  unfold finalPatch
  by_cases hc : cleanedOf text now ≠ [] ∧
      lowerL (cleanedOf text now) ≠ lowerL (trimL text.data) <;> simp [hc, hasMeaningful]

theorem parse_some_eq (text : String) (now : JsDate) (p : ParsedTaskPatch)
    (h : parseQuickAddRu text now = some p) : p = finalPatch text now := by
  unfold parseQuickAddRu at h
  by_cases h0 : trimL text.data = []
  · rw [if_pos h0] at h
    exact absurd h (by simp)
  · rw [if_neg h0] at h
    by_cases h1 : (hasMeaningful (finalPatch text now) ||
        (finalPatch text now).cleaned_title.isSome) = true
    · rw [if_pos h1] at h
      exact (Option.some.inj h).symm
    · rw [if_neg h1] at h
      exact absurd h (by simp)

/-! ### Claims -/

/-- Claim C1 (code evaluation at the failing input): for
NOW = 2024-01-10T12:00:00Z, `parse("every tuesday evening trash", NOW)`
does NOT set weekly recurrence or a 20:00 due time; the English word
"every" is not accepted by the recurrence pattern (which only knows the
Russian prefixes каждый/каждую/каждое) and "evening" is not in the
time-of-day marker table, so only the bare-weekday one-shot match fires,
giving 2024-01-16T23:59:00.000Z with no repeat fields.  The repository's
own README documents the Russian form of this very example
(`каждый вторник вечером` → next Tuesday 20:00, repeat weekly) yet the
parser returns no match for it, because a JavaScript non-unicode `\b`
never matches adjacent to Cyrillic letters. -/
theorem claim_c1_code_eval :
    parseQuickAddRu "every tuesday evening trash" NOW =
      some { due_date := some "2024-01-16T23:59:00.000Z",
             cleaned_title := some "Every evening trash" } ∧
    parseQuickAddRu "вынести мусор каждый вторник вечером" NOW = none := by
  constructor <;> decide

/-- Claim C2 (code evaluation at the failing input): for
NOW = 2024-01-10T12:00:00Z, `parse("at 9 call", NOW)` returns no match —
not a patch with due_date 2024-01-11T09:00:00.000Z — because the
hour-only time form requires the literal Russian preposition `в`; and the
documented Russian form `позвонить в 9` also returns no match, because
the leading `\b` of `/\bв\s+(\d{1,2})\b(?!:)/` demands an ASCII word
character immediately before the Cyrillic `в`, which never occurs after
a space or at the start of the text. -/
theorem claim_c2_code_eval :
    parseQuickAddRu "at 9 call" NOW = none ∧
    parseQuickAddRu "позвонить в 9" NOW = none := by
  constructor <;> decide

/-- Claim C3: a bare weekday name resolves to the next occurrence of that
weekday strictly excluding today: when the reference day already is the
target weekday, `nextWeekday` with `allowToday = false` lands a full week
later; and concretely, for NOW = 2024-01-10T12:00:00Z (a Wednesday),
`parse("on wednesday report", NOW).due_date = 2024-01-17T23:59:00.000Z`,
not today. -/
theorem claim_c3_weekday_excludes_today :
    (∀ (frm : JsDate) (w : Int), getDay frm = w →
      nextWeekday frm w false = addDays (startOfDay frm) 7) ∧
    parseQuickAddRu "on wednesday report" NOW =
      some { due_date := some "2024-01-17T23:59:00.000Z",
             cleaned_title := some "On report" } := by
  constructor
  · intro frm w h
    simp [nextWeekday, ← h]
  · decide

/-- Witness for C3 at the concrete reference instant (a Wednesday,
weekday 3). -/
theorem claim_c3_witness :
    nextWeekday NOW 3 false = addDays (startOfDay NOW) 7 :=
  claim_c3_weekday_excludes_today.1 NOW 3 (by decide)

/-- Claim C6: the day-of-month resolver is total (it never rejects an
out-of-range day) and implements exactly the spec's described algorithm:
clamp the day to the current month's length, use the candidate unless it
is strictly before the reference date's start-of-day, otherwise advance
one month and clamp again.  Concretely, day 31 against a date in a 30-day
month (2024-04-15) yields 2024-04-30 of that month, and day 5 against
2024-01-10 resolves to 2024-02-05. -/
theorem claim_c6_nearest_day_of_month :
    (∀ (ref : JsDate) (day : Int),
      nearestDayOfMonth ref day = nearestDayOfMonthSpec ref day) ∧
    nearestDayOfMonth (mkUtc 2024 4 15 0 0) 31 = mkUtc 2024 4 30 0 0 ∧
    nearestDayOfMonth (startOfDay NOW) 5 = mkUtc 2024 2 5 0 0 := by
  refine ⟨?_, by decide, by decide⟩
  intro ref day
  by_cases h : mkDateDay (getFullYear ref) (getMonth0 ref) (min day (getDaysInMonth ref)) <
      startOfDay ref <;>
    simp [nearestDayOfMonth, nearestDayOfMonthSpec, h]

/-- Claim C4: `due_date` is assigned at most once per parse.  Every stage
that could set `due_date` — the second-day-of-week idiom, the
every-weekday recurrence, the every-day-of-month recurrence, the one-shot
date expressions, the time-only fallback, the hourly-repeat fallback and
the monthly-repeat fallback — leaves an already-set `due_date` untouched
(for the two stages whose source guard is the JavaScript truthiness test
`!patch.due_date`, an already-set value means any non-empty string, and
the engine only ever stores non-empty ISO strings). -/
theorem claim_c4_due_date_set_once :
    ∀ (now : JsDate) (st : ParseState) (d : String),
      st.patch.due_date = some d → d ≠ "" →
      (stageSecondDay now st).patch.due_date = some d ∧
      (stageEveryWeekday now st).patch.due_date = some d ∧
      (stageEveryDayOfMonth now st).patch.due_date = some d ∧
      (stageDateExprs now st).patch.due_date = some d ∧
      (stageTimeOnly now st).patch.due_date = some d ∧
      (stageHourlyDue now st).patch.due_date = some d ∧
      (stageMonthlyDue now st).patch.due_date = some d := by
  intro now st d h hne
  refine ⟨?_, ?_, ?_, ?_, ?_, ?_, ?_⟩
  · cases hm : searchRe secondDayM st.remaining with
    | none => simp [stageSecondDay, hm, h]
    | some r => simp [stageSecondDay, hm, h]
  · simp [stageEveryWeekday, dueTruthy, h, hne]
  · simp [stageEveryDayOfMonth, dueTruthy, h, hne]
  · simp [stageDateExprs, h]
  · simp [stageTimeOnly, h]
  · cases hra : st.patch.repeat_after with
    | none => simp [stageHourlyDue, hra, h]
    | some ra => simp [stageHourlyDue, hra, h]
  · simp [stageMonthlyDue, h]

/-- Witness for C4: a state whose due date is already set survives all
seven later due-setting stages unchanged. -/
theorem claim_c4_witness :
    c4state.patch.due_date = some "2024-01-09T23:59:00.000Z" ∧
    ((stageSecondDay NOW c4state).patch.due_date = some "2024-01-09T23:59:00.000Z" ∧
     (stageEveryWeekday NOW c4state).patch.due_date = some "2024-01-09T23:59:00.000Z" ∧
     (stageEveryDayOfMonth NOW c4state).patch.due_date = some "2024-01-09T23:59:00.000Z" ∧
     (stageDateExprs NOW c4state).patch.due_date = some "2024-01-09T23:59:00.000Z" ∧
     (stageTimeOnly NOW c4state).patch.due_date = some "2024-01-09T23:59:00.000Z" ∧
     (stageHourlyDue NOW c4state).patch.due_date = some "2024-01-09T23:59:00.000Z" ∧
     (stageMonthlyDue NOW c4state).patch.due_date = some "2024-01-09T23:59:00.000Z") :=
  ⟨by decide,
   claim_c4_due_date_set_once NOW c4state "2024-01-09T23:59:00.000Z" (by decide) (by decide)⟩

/-- Claim C5: the five recurrence-keyword checks are mutually exclusive
and evaluated in the fixed order daily, weekly, monthly, hourly,
every-N-hours; the first matching keyword alone populates the patch and
only its substring is replaced, regardless of whether lower-priority
keywords also occur in the buffer. -/
theorem claim_c5_recurrence_priority :
    (∀ (st : ParseState) (b a : List Char),
      searchRe everyDayM st.remaining = some (b, (), a) →
      stageRecurKeywords st =
        { st with remaining := b ++ ' ' :: a,
                  patch := { st.patch with repeat_after := some 86400,
                                           repeat_mode := some 0 } }) ∧
    (∀ (st : ParseState) (b a : List Char),
      searchRe everyDayM st.remaining = none →
      searchRe everyWeekM st.remaining = some (b, (), a) →
      stageRecurKeywords st =
        { st with remaining := b ++ ' ' :: a,
                  patch := { st.patch with repeat_after := some 604800,
                                           repeat_mode := some 0 } }) ∧
    (∀ (st : ParseState) (b a : List Char),
      searchRe everyDayM st.remaining = none →
      searchRe everyWeekM st.remaining = none →
      searchRe everyMonthM st.remaining = some (b, (), a) →
      stageRecurKeywords st =
        { st with remaining := b ++ ' ' :: a,
                  patch := { st.patch with repeat_mode := some 1 } }) ∧
    (∀ (st : ParseState) (b a : List Char),
      searchRe everyDayM st.remaining = none →
      searchRe everyWeekM st.remaining = none →
      searchRe everyMonthM st.remaining = none →
      searchRe everyHourM st.remaining = some (b, (), a) →
      stageRecurKeywords st =
        { st with remaining := b ++ ' ' :: a,
                  patch := { st.patch with repeat_after := some 3600,
                                           repeat_mode := some 0 } }) ∧
    (∀ (st : ParseState) (b : List Char) (n : Nat) (a : List Char),
      searchRe everyDayM st.remaining = none →
      searchRe everyWeekM st.remaining = none →
      searchRe everyMonthM st.remaining = none →
      searchRe everyHourM st.remaining = none →
      searchRe everyNHoursM st.remaining = some (b, n, a) →
      stageRecurKeywords st =
        { st with remaining := b ++ ' ' :: a,
                  patch := { st.patch with repeat_after := some (3600 * n),
                                           repeat_mode := some 0 } }) := by
  refine ⟨?_, ?_, ?_, ?_, ?_⟩
  · intro st b a h1
    simp [stageRecurKeywords, h1]
  · intro st b a h1 h2
    simp [stageRecurKeywords, h1, h2]
  · intro st b a h1 h2 h3
    simp [stageRecurKeywords, h1, h2, h3]
  · intro st b a h1 h2 h3 h4
    simp [stageRecurKeywords, h1, h2, h3, h4]
  · intro st b n a h1 h2 h3 h4 h5
    simp [stageRecurKeywords, h1, h2, h3, h4, h5]

/-- Witness for C5: a buffer containing both the daily and the hourly
keyword yields repeat_after 86400 (not 3600), and only the daily
substring is erased. -/
theorem claim_c5_witness :
    (searchRe everyHourM "zкаждый деньz zкаждый часz".data).isSome = true ∧
    stageRecurKeywords (initState "zкаждый деньz zкаждый часz".data) =
      { initState "zкаждый деньz zкаждый часz".data with
        remaining := "z".data ++ ' ' :: "z zкаждый часz".data,
        patch := { repeat_after := some 86400, repeat_mode := some 0 } } :=
  ⟨by decide,
   claim_c5_recurrence_priority.1 (initState "zкаждый деньz zкаждый часz".data)
     "z".data "z zкаждый часz".data (by decide)⟩

/-- Claim C7: the engine never produces the reserved repeat mode 3: any
returned patch has repeat_mode unset, 0 (Interval) or 1 (MonthlyByDay). -/
theorem claim_c7_no_reserved_mode :
    ∀ (text : String) (now : JsDate) (p : ParsedTaskPatch),
      parseQuickAddRu text now = some p →
      p.repeat_mode = none ∨ p.repeat_mode = some 0 ∨ p.repeat_mode = some 1 := by
  intro text now p h
  rw [parse_some_eq text now p h, (finalPatch_repeat_eq text now).2]
  exact (goodRepeat_core text now).1

/-- Witness for C7 at a concrete monthly-recurrence input. -/
theorem claim_c7_witness :
    parseQuickAddRu "zкаждый месяцz" NOW = some pC7 ∧
    (pC7.repeat_mode = none ∨ pC7.repeat_mode = some 0 ∨ pC7.repeat_mode = some 1) :=
  ⟨by decide, claim_c7_no_reserved_mode "zкаждый месяцz" NOW pC7 (by decide)⟩

/-- Claim C8: the engine reports "no match" (returns nothing, never an
empty patch) exactly when no field besides the cleaned title was
populated and the cleaned title equals the trimmed input (compared
case-insensitively, as the source does); and in particular the empty
input, a whitespace-only input and marker-free plain text all yield no
match. -/
theorem claim_c8_no_match_gate :
    (∀ (text : String) (now : JsDate), trimL text.data ≠ [] →
      (parseQuickAddRu text now = none ↔
        hasMeaningful (coreState text now).patch = false ∧
          lowerL (cleanedOf text now) = lowerL (trimL text.data))) ∧
    parseQuickAddRu "" NOW = none ∧
    parseQuickAddRu "   " NOW = none ∧
    parseQuickAddRu "plain text no markers" NOW = none := by
  refine ⟨?_, by decide, by decide, by decide⟩
  intro text now htrim
  constructor
  · intro h
    unfold parseQuickAddRu at h
    rw [if_neg htrim] at h
    by_cases hg : (hasMeaningful (finalPatch text now) ||
        (finalPatch text now).cleaned_title.isSome) = true
    · rw [if_pos hg] at h
      exact absurd h (by simp)
    · simp only [Bool.or_eq_true, not_or, Bool.not_eq_true] at hg
      obtain ⟨hm, ht⟩ := hg
      have hmc : hasMeaningful (coreState text now).patch = false := by
        rw [← hasMeaningful_finalPatch text now]
        exact hm
      refine ⟨hmc, ?_⟩
      have hcond : ¬(cleanedOf text now ≠ [] ∧
          lowerL (cleanedOf text now) ≠ lowerL (trimL text.data)) := by
        intro hc
        unfold finalPatch at ht
        rw [if_pos hc] at ht
        simp at ht
      have hrem := core_not_meaningful_id text now hmc
      have hne : cleanedOf text now ≠ [] := by
        unfold cleanedOf
        rw [hrem]
        exact cleaned_ne_nil text.data htrim
      by_contra hne2
      exact hcond ⟨hne, hne2⟩
  · rintro ⟨hm, heq⟩
    unfold parseQuickAddRu
    rw [if_neg htrim]
    have hcond : ¬(cleanedOf text now ≠ [] ∧
        lowerL (cleanedOf text now) ≠ lowerL (trimL text.data)) :=
      fun hc => hc.2 heq
    have hfp : finalPatch text now = (coreState text now).patch := by
      unfold finalPatch
      rw [if_neg hcond]
    have hgate : (hasMeaningful (finalPatch text now) ||
        (finalPatch text now).cleaned_title.isSome) = false := by
      rw [hfp]
      simp [hm, title_core_none text now]
    rw [if_neg (by simp [hgate])]

/-- Witness for C8 at a concrete marker-free input. -/
theorem claim_c8_witness :
    trimL "hello world".data ≠ [] ∧
    (parseQuickAddRu "hello world" NOW = none ↔
      hasMeaningful (coreState "hello world" NOW).patch = false ∧
        lowerL (cleanedOf "hello world" NOW) = lowerL (trimL "hello world".data)) :=
  ⟨by decide, claim_c8_no_match_gate.1 "hello world" NOW (by decide)⟩

/-- Claim C9: whenever a returned patch carries `repeat_after`, its
`repeat_mode` is 0 (Interval) in the same patch; an interval length never
accompanies mode 1. -/
theorem claim_c9_interval_mode_pairing :
    ∀ (text : String) (now : JsDate) (p : ParsedTaskPatch),
      parseQuickAddRu text now = some p →
      p.repeat_after.isSome → p.repeat_mode = some 0 := by
  intro text now p h hra
  rw [parse_some_eq text now p h, (finalPatch_repeat_eq text now).2]
  refine (goodRepeat_core text now).2 ?_
  rw [← (finalPatch_repeat_eq text now).1, ← parse_some_eq text now p h]
  exact hra

/-- Witness for C9 at a concrete daily-recurrence input. -/
theorem claim_c9_witness :
    parseQuickAddRu "zкаждый деньz" NOW = some pC9 ∧ pC9.repeat_after.isSome = true ∧
    pC9.repeat_mode = some 0 :=
  ⟨by decide, by decide,
   claim_c9_interval_mode_pairing "zкаждый деньz" NOW pC9 (by decide) (by decide)⟩

/-- Claim C10: the explicit-time extractor performs no range validation:
`parse("в 25:70", NOW)` (hour 25, minute 70) still produces a patch whose
due date is obtained by calendar overflow — 25:70 counted from today's
midnight is 2024-01-11T02:10:00.000Z. -/
theorem claim_c10_no_time_range_validation :
    parseQuickAddRu "в 25:70" NOW =
      some { due_date := some "2024-01-11T02:10:00.000Z" } := by
  decide

end QuickAddRu
